import Mathlib

/-!
Verification of the token-lifecycle / rate-limiter core of the
fastapi-boilerplate repository, as a shallow embedding in Lean.

Conventions of the embedding:
* Python floats used as POSIX timestamps are modelled as rationals;
  machine integers are unbounded.
* A Python method call that samples the clock repeatedly within one call
  is modelled as receiving a single instant `now` (the calls are
  microseconds apart and the code does not rely on their difference).
* The mutable `Dict[str, List[Tuple[float, int]]]` of the rate limiter is
  modelled as a total function from keys to lists, where an absent key is
  the empty list (the code uses a `defaultdict(list)` and deletes a key
  exactly when its list becomes empty, which is observationally the same).
* Raising an exception is modelled by returning an error value.
-/

/-! ## Rate limiter (src/core/rate_limiter.py) -/

/-- Rate-limiter entry: a `(timestamp, count)` pair, as stored in
`RateLimiter._requests[identifier]`. -/
abbrev RLEntry := ℚ × ℕ

/-- Python `int(q)` on a rational: truncation toward zero. -/
def pyInt (q : ℚ) : ℤ :=
  if 0 ≤ q then ⌊q⌋ else -⌊-q⌋

/-- Body of `RateLimiter._clean_old_requests` (rate_limiter.py lines 30-42):
keep exactly the entries whose timestamp is strictly later than
`now - window_seconds`. -/
def clean_old_requests (window_seconds : ℕ) (now : ℚ) (entries : List RLEntry) :
    List RLEntry :=
  entries.filter (fun e => decide (now - (window_seconds : ℚ) < e.1))

/-- Sum of the counts of a list of entries, as in
`sum(count for _, count in self._requests[identifier])` (line 65). -/
def requestCount (entries : List RLEntry) : ℕ :=
  (entries.map Prod.snd).sum

/-- Python `min(ts for ts, _ in entries)` (rate_limiter.py line 70):
minimum timestamp of a nonempty entry list, `none` on the empty list. -/
def oldestTimestamp : List RLEntry → Option ℚ
  | [] => none
  | e :: es => some ((es.map Prod.fst).foldl min e.1)

/-- Result of one `check_rate_limit` call: the `(is_allowed, retry_after)`
pair returned by the Python method. -/
structure CheckResult where
  allowed : Bool
  retryAfter : Option ℤ
deriving DecidableEq, Repr

/-- Translation of `RateLimiter.check_rate_limit` (rate_limiter.py lines
44-77) restricted to one identifier's entry list; returns the result pair
together with the identifier's entry list after the call.  The method
first runs `_clean_old_requests`, then sums the remaining counts; on
denial with a nonempty list it returns
`int(window_seconds - (current_time - oldest_timestamp)) + 1`, on denial
with an empty list it returns `window_seconds`, and otherwise it appends
`(current_time, 1)` and allows. -/
def check_rate_limit_entries (max_requests window_seconds : ℕ) (now : ℚ)
    (entries : List RLEntry) : CheckResult × List RLEntry :=
  if max_requests ≤ requestCount (clean_old_requests window_seconds now entries) then
    match oldestTimestamp (clean_old_requests window_seconds now entries) with
    | some oldest =>
        (⟨false, some (pyInt ((window_seconds : ℚ) - (now - oldest)) + 1)⟩,
          clean_old_requests window_seconds now entries)
    | none =>
        (⟨false, some (window_seconds : ℤ)⟩,
          clean_old_requests window_seconds now entries)
  else
    (⟨true, none⟩, clean_old_requests window_seconds now entries ++ [(now, 1)])

/-- State of a `RateLimiter` instance: its `_requests` dictionary,
modelled as a total function (absent key = empty list). -/
def RLState := String → List RLEntry

/-- The empty `_requests` dictionary of a fresh `RateLimiter()`. -/
def RLState.empty : RLState := fun _ => []

/-- Full `RateLimiter.check_rate_limit` on the limiter state: acts on the
entry list stored under `identifier` and leaves every other key alone. -/
def check_rate_limit (st : RLState) (identifier : String)
    (max_requests window_seconds : ℕ) (now : ℚ) : CheckResult × RLState :=
  ((check_rate_limit_entries max_requests window_seconds now (st identifier)).1,
    fun k =>
      if k = identifier then
        (check_rate_limit_entries max_requests window_seconds now (st identifier)).2
      else st k)

/-- The `RateLimitError` raised by `check_rate_limit_or_raise`, carrying
its `retry_after` value. -/
structure RateLimitErr where
  retryAfter : Option ℤ
deriving DecidableEq, Repr

/-- Translation of `RateLimiter.check_rate_limit_or_raise` (lines 79-101):
runs `check_rate_limit` and turns a denial into a `RateLimitError`.  The
state component records the dictionary as mutated by the call, whether or
not the error is raised. -/
def check_rate_limit_or_raise (st : RLState) (identifier : String)
    (max_requests window_seconds : ℕ) (now : ℚ) :
    Option RateLimitErr × RLState :=
  if (check_rate_limit st identifier max_requests window_seconds now).1.allowed then
    (none, (check_rate_limit st identifier max_requests window_seconds now).2)
  else
    (some ⟨(check_rate_limit st identifier max_requests window_seconds now).1.retryAfter⟩,
      (check_rate_limit st identifier max_requests window_seconds now).2)

/-- The rate-limiting fields of `Config` (config.py lines 41-45). -/
structure RateConfig where
  RATE_LIMIT_ENABLED : Bool
  RATE_LIMIT_PER_MINUTE : ℕ
  RATE_LIMIT_PER_HOUR : ℕ
  RATE_LIMIT_PER_DAY : ℕ
deriving DecidableEq, Repr

/-- Translation of `check_rate_limit_per_minute` (lines 114-121): when
rate limiting is enabled, check the per-minute tier under the key
`"minute:" ++ identifier` with a 60-second window. -/
def check_rate_limit_per_minute (cfg : RateConfig) (st : RLState)
    (identifier : String) (now : ℚ) : Option RateLimitErr × RLState :=
  if cfg.RATE_LIMIT_ENABLED then
    check_rate_limit_or_raise st ("minute:" ++ identifier)
      cfg.RATE_LIMIT_PER_MINUTE 60 now
  else (none, st)

/-- Translation of `check_rate_limit_per_hour` (lines 124-131). -/
def check_rate_limit_per_hour (cfg : RateConfig) (st : RLState)
    (identifier : String) (now : ℚ) : Option RateLimitErr × RLState :=
  if cfg.RATE_LIMIT_ENABLED then
    check_rate_limit_or_raise st ("hour:" ++ identifier)
      cfg.RATE_LIMIT_PER_HOUR 3600 now
  else (none, st)

/-- Translation of `check_rate_limit_per_day` (lines 134-141). -/
def check_rate_limit_per_day (cfg : RateConfig) (st : RLState)
    (identifier : String) (now : ℚ) : Option RateLimitErr × RLState :=
  if cfg.RATE_LIMIT_ENABLED then
    check_rate_limit_or_raise st ("day:" ++ identifier)
      cfg.RATE_LIMIT_PER_DAY 86400 now
  else (none, st)

/-- Translation of `check_all_rate_limits` (lines 144-148): minute, then
hour, then day; a raised `RateLimitError` propagates at once, skipping the
remaining tiers. -/
def check_all_rate_limits (cfg : RateConfig) (st : RLState)
    (identifier : String) (now : ℚ) : Option RateLimitErr × RLState :=
  match (check_rate_limit_per_minute cfg st identifier now).1 with
  | some e => (some e, (check_rate_limit_per_minute cfg st identifier now).2)
  | none =>
    match (check_rate_limit_per_hour cfg
        (check_rate_limit_per_minute cfg st identifier now).2 identifier now).1 with
    | some e =>
        (some e, (check_rate_limit_per_hour cfg
          (check_rate_limit_per_minute cfg st identifier now).2 identifier now).2)
    | none =>
        check_rate_limit_per_day cfg
          (check_rate_limit_per_hour cfg
            (check_rate_limit_per_minute cfg st identifier now).2 identifier now).2
          identifier now

/-- Running a sequence of `check_rate_limit` calls for one identifier at
the given call instants, from a starting entry list; returns the list of
results and the final entry list. -/
def check_rate_limit_run (max_requests window_seconds : ℕ) :
    List ℚ → List RLEntry → List CheckResult × List RLEntry
  | [], entries => ([], entries)
  | t :: ts, entries =>
      ((check_rate_limit_entries max_requests window_seconds t entries).1 ::
          (check_rate_limit_run max_requests window_seconds ts
            (check_rate_limit_entries max_requests window_seconds t entries).2).1,
        (check_rate_limit_run max_requests window_seconds ts
          (check_rate_limit_entries max_requests window_seconds t entries).2).2)

/-! ## Lock structure of `check_rate_limit` (for the concurrency analysis)

The Python method executes two `with self._lock:` blocks: one inside
`_clean_old_requests` (rate_limiter.py line 35) and one inside
`check_rate_limit` itself (line 64).  Each block is modelled as one
atomic section; a concurrent execution is an arbitrary interleaving of
such sections. -/

/-- One atomic (lock-protected) section of `check_rate_limit`:
either the pruning block of `_clean_old_requests`, or the
sum-then-conditionally-append block of `check_rate_limit`. -/
inductive RLSection where
  | pruneSec (window_seconds : ℕ) (now : ℚ)
  | sumAppendSec (max_requests : ℕ) (now : ℚ)
deriving DecidableEq, Repr

/-- Effect of one atomic section on the identifier's entry list.
The sum-and-append section appends `(now, 1)` exactly when the summed
count is below `max_requests`, as in rate_limiter.py lines 64-77. -/
def applySection (entries : List RLEntry) : RLSection → List RLEntry
  | .pruneSec w now => clean_old_requests w now entries
  | .sumAppendSec m now =>
      if m ≤ requestCount entries then entries else entries ++ [(now, 1)]

/-- The sequence of lock-protected sections executed by one
`check_rate_limit(identifier, max_requests, window_seconds)` call:
first the pruning block of `_clean_old_requests`, then the
sum-and-conditionally-append block. -/
def checkRateLimitSections (max_requests window_seconds : ℕ) (now : ℚ) :
    List RLSection :=
  [.pruneSec window_seconds now, .sumAppendSec max_requests now]

/-- Number of lock acquisitions needed to run a list of sections: each
section is one `with self._lock:` block, hence one acquisition. -/
def lockAcquisitions (sections : List RLSection) : ℕ :=
  sections.length

/-- A section belongs to a caller using the fixed limit `m`: pruning
sections carry no limit, and sum-and-append sections must use `m`. -/
def sectionUsesMax (m : ℕ) : RLSection → Prop
  | .pruneSec _ _ => True
  | .sumAppendSec m' _ => m' = m

/-! ## Token codec (src/core/security.py)

The JWT library (`pyjwt`) and `bcrypt` are external collaborators; they
are modelled abstractly, faithful to the specification's contract for the
Token Codec (spec section 4.1). -/

/-- A JSON claim value as used by the access-token payloads (strings and
integer timestamps suffice for the claims this service writes). -/
inductive ClaimValue where
  | str (s : String)
  | int (n : ℤ)
deriving DecidableEq, Repr

/-- A JWT payload: a JSON object, modelled as an association list. -/
abbrev JwtPayload := List (String × ClaimValue)

/-- Python `dict` lookup `payload.get(k)`. -/
def dictGet (payload : JwtPayload) (k : String) : Option ClaimValue :=
  (payload.find? (fun kv => kv.1 = k)).map Prod.snd

/-- Python `dict` update for one key: override the existing binding or
append a new one. -/
def dictSet (payload : JwtPayload) (k : String) (v : ClaimValue) : JwtPayload :=
  if payload.any (fun kv => kv.1 = k) then
    payload.map (fun kv => if kv.1 = k then (k, v) else kv)
  else
    payload ++ [(k, v)]

/-- A token string as seen by `jwt.decode`: either a well-formed JWT
(payload plus the key and algorithm it was signed with) or an undecodable
string. -/
inductive TokenString where
  | signed (payload : JwtPayload) (key : String) (alg : String)
  | malformed
deriving DecidableEq, Repr

/-- The JWT fields of `Config` (config.py lines 29-33). -/
structure JwtConfig where
  SECRET_KEY : String
  ALGORITHM : String
  ACCESS_TOKEN_EXPIRE_MINUTES : ℤ
deriving DecidableEq, Repr

/-- Model of the external `jwt.encode(payload, key, algorithm)`: packages
the payload with the signing key and algorithm. -/
def jwtEncode (payload : JwtPayload) (key alg : String) : TokenString :=
  .signed payload key alg

/-- Errors raised by `jwt.decode` / `decode_access_token`:
`expiredSignature` is `jwt.ExpiredSignatureError`, `invalidToken` is
`jwt.InvalidTokenError` from decoding or signature failure, and
`invalidTokenType` is the `jwt.InvalidTokenError("Invalid token type")`
raised by `decode_access_token` itself. -/
inductive JwtError where
  | expiredSignature
  | invalidToken
  | invalidTokenType
deriving DecidableEq, Repr

/-- Model of the external `jwt.decode(token, key, algorithms)`, per the
specification's Token Codec contract (spec section 4.1): fails with
`Malformed/InvalidSignature` if decoding or the signature check fails
(undecodable input, wrong key, or an algorithm outside the accepted
list), fails with `Expired` if `now > expires_at`, and otherwise returns
the claims. -/
def jwtDecode (t : TokenString) (key : String) (algs : List String) (now : ℤ) :
    Except JwtError JwtPayload :=
  match t with
  | .malformed => .error .invalidToken
  | .signed payload k a =>
      if k = key ∧ a ∈ algs then
        match dictGet payload "exp" with
        | some (.int e) => if e < now then .error .expiredSignature else .ok payload
        | _ => .ok payload
      else .error .invalidToken

/-- Translation of `create_access_token` (security.py lines 61-90): copy
the caller's claims, set `exp` to now plus the expiry delta (the
configured `ACCESS_TOKEN_EXPIRE_MINUTES` when no truthy delta is given;
Python's `if expires_delta:` treats a zero delta as absent), set `iat`
to now and `type` to `"access"`, and sign with the configured secret and
algorithm.  Times are in seconds; `expires_delta` is a number of
seconds. -/
def create_access_token (data : JwtPayload) (expires_delta : Option ℤ)
    (now : ℤ) (cfg : JwtConfig) : TokenString :=
  let expire : ℤ :=
    match expires_delta with
    | some d => if d = 0 then now + 60 * cfg.ACCESS_TOKEN_EXPIRE_MINUTES else now + d
    | none => now + 60 * cfg.ACCESS_TOKEN_EXPIRE_MINUTES
  let to_encode :=
    dictSet (dictSet (dictSet data "exp" (.int expire)) "iat" (.int now))
      "type" (.str "access")
  jwtEncode to_encode cfg.SECRET_KEY cfg.ALGORITHM

/-- Translation of `decode_access_token` (security.py lines 103-131):
decode and verify via `jwt.decode`, re-raising its errors unchanged, then
fail with `InvalidTokenError("Invalid token type")` when the `type` claim
of the payload is not `"access"`. -/
def decode_access_token (t : TokenString) (cfg : JwtConfig) (now : ℤ) :
    Except JwtError JwtPayload :=
  match jwtDecode t cfg.SECRET_KEY [cfg.ALGORITHM] now with
  | .error e => .error e
  | .ok payload =>
      if dictGet payload "type" ≠ some (.str "access") then
        .error .invalidTokenType
      else .ok payload

/-- Outcome of the external `bcrypt.checkpw`: a boolean, or a raised
exception (for example on a malformed stored hash).  `verify_password`
is parameterised by this oracle. -/
abbrev BcryptOracle := String → String → Except String Bool

/-- Translation of `verify_password` (security.py lines 41-58): call
`bcrypt.checkpw` on the encoded inputs and return its boolean; any
exception is caught, logged, and turned into `False`. -/
def verify_password (checkpw : BcryptOracle) (plain_password hashed_password : String) :
    Bool :=
  match checkpw plain_password hashed_password with
  | .ok b => b
  | .error _ => false

/-! ## Credential store and session manager (src/services/auth_service.py)

The service layer (`AuthService`) is translated from
src/services/auth_service.py.  Its persistence collaborator,
`AuthRepository` (src/repositories/auth_repository.py), is not part of
the sources; its operations are modelled from the specification's
Credential Store contract (spec section 6) and its session-limit clause
(spec section 4.3).  Times are integer seconds. -/

/-- The `users` row (models/user.py lines 21-38), restricted to the
fields the session manager reads. -/
structure UserRec where
  id : ℕ
  username : String
  email : String
  hashed_password : String
  is_active : Bool
  is_admin : Bool
deriving DecidableEq, Repr

/-- The `refresh_tokens` row (models/user.py lines 51-66). -/
structure RefreshTokenRec where
  token : String
  user_id : ℕ
  expires_at : ℤ
  created_at : ℤ
  is_revoked : Bool
  user_agent : Option String
  ip_address : Option String
deriving DecidableEq, Repr

/-- The credential store: users and refresh-token rows, in insertion
order. -/
structure Store where
  users : List UserRec
  refreshTokens : List RefreshTokenRec
deriving DecidableEq, Repr

/-- Modelled from the spec: `AuthRepository.get_user_by_username`
(`find_user_by_username(name) -> User?`, spec section 6); the repository
file is absent from the sources. -/
def get_user_by_username (store : Store) (username : String) : Option UserRec :=
  store.users.find? (fun u => u.username = username)

/-- Modelled from the spec: `AuthRepository.get_user_by_email`
(`find_user_by_email(email) -> User?`, spec section 6). -/
def get_user_by_email (store : Store) (email : String) : Option UserRec :=
  store.users.find? (fun u => u.email = email)

/-- Modelled from the spec: `AuthRepository.get_user_by_id`
(`find_user_by_id(id) -> User?`, spec section 6). -/
def get_user_by_id (store : Store) (id : ℕ) : Option UserRec :=
  store.users.find? (fun u => u.id = id)

/-- Modelled from the spec: `AuthRepository.get_refresh_token`
(`find_refresh_credential(token) -> RefreshCredential?`, spec
section 6). -/
def get_refresh_token (store : Store) (token : String) : Option RefreshTokenRec :=
  store.refreshTokens.find? (fun r => r.token = token)

/-- Modelled from the spec: `AuthRepository.revoke_refresh_token`
(`revoke_refresh_credential(token) -> void`, spec section 6): mark the
row with this token revoked. -/
def revoke_refresh_token (store : Store) (token : String) : Store :=
  { store with
    refreshTokens :=
      store.refreshTokens.map
        (fun r => if r.token = token then { r with is_revoked := true } else r) }

/-- A refresh-token row that is live (non-revoked and non-expired) for a
given user at a given instant; expiry is `expires_at < now`, the lazily
checked condition of `refresh_access_token` (auth_service.py line 278). -/
def isLiveFor (user_id : ℕ) (now : ℤ) (r : RefreshTokenRec) : Bool :=
  r.user_id = user_id && !r.is_revoked && !(r.expires_at < now)

/-- The user's live refresh-token rows, in store order. -/
def liveTokens (store : Store) (user_id : ℕ) (now : ℤ) : List RefreshTokenRec :=
  store.refreshTokens.filter (isLiveFor user_id now)

/-- Number of live refresh credentials a user holds. -/
def liveCount (store : Store) (user_id : ℕ) (now : ℤ) : ℕ :=
  (liveTokens store user_id now).length

/-- The earliest-created row of a list (first one on ties), as the FIFO
eviction victim; `none` on the empty list. -/
def oldestCreated : List RefreshTokenRec → Option RefreshTokenRec
  | [] => none
  | r :: rs =>
      some (rs.foldl (fun acc x => if x.created_at < acc.created_at then x else acc) r)

/-- Modelled from the spec: `AuthRepository.create_refresh_token`
(`create_refresh_credential`, spec section 6) together with the
session-limit clause of spec section 4.3: before persisting the new
refresh credential, the count of non-revoked, non-expired credentials of
the user is compared with the configured maximum
(`Config.MAX_SESSIONS_PER_USER`, config.py line 55); if the count is at
or above the limit, the oldest live credential (FIFO by `created_at`) is
revoked, and then the new row is inserted with the configured TTL in
days and the supplied client context. -/
def create_refresh_token (store : Store) (max_sessions : ℕ) (user_id : ℕ)
    (token : String) (expires_days : ℤ) (user_agent ip_address : Option String)
    (now : ℤ) : Store :=
  let store₁ :=
    if max_sessions ≤ liveCount store user_id now then
      match oldestCreated (liveTokens store user_id now) with
      | some victim => revoke_refresh_token store victim.token
      | none => store
    else store
  { store₁ with
    refreshTokens := store₁.refreshTokens ++
      [{ token := token
         user_id := user_id
         expires_at := now + 86400 * expires_days
         created_at := now
         is_revoked := false
         user_agent := user_agent
         ip_address := ip_address }] }

/-- Modelled from the spec: `AuthRepository.create_user`
(`create_user(username, email, password_hash) -> User`, spec section 6);
the fresh id is one past the largest id in the store. -/
def create_user (store : Store) (username email hashed_password : String) :
    UserRec × Store :=
  let id := (store.users.map UserRec.id).foldl max 0 + 1
  let user : UserRec :=
    { id := id, username := username, email := email
      hashed_password := hashed_password, is_active := true, is_admin := false }
  (user, { store with users := store.users ++ [user] })

/-- The errors raised by `AuthService` (each a `ValueError` with the
quoted message in auth_service.py). -/
inductive AuthError where
  | usernameExists
  | emailExists
  | invalidCredentials
  | inactiveAccount
  | invalidRefreshToken
  | revokedRefreshToken
  | expiredRefreshToken
  | userNotFound
deriving DecidableEq, Repr

/-- The `TokenResponse` returned by the service (schemas/auth.py). -/
structure TokenResponse where
  access_token : TokenString
  refresh_token : String
deriving DecidableEq, Repr

/-- The configuration fields the service reads. -/
structure AuthConfig where
  jwt : JwtConfig
  REFRESH_TOKEN_EXPIRE_DAYS : ℤ
  MAX_SESSIONS_PER_USER : ℕ
deriving DecidableEq, Repr

/-- Translation of `AuthService.login_user` (auth_service.py lines
127-224), parameterised by the bcrypt oracle, the freshly generated
refresh-token string (`generate_refresh_token()` is a random draw), and
the clock.  Lookup failure and password failure both raise
`ValueError("Invalid username or password")`; an inactive user raises
`ValueError("Account is inactive")`; on success an access token is
created and the refresh token is persisted. -/
def login_user (checkpw : BcryptOracle) (store : Store) (username password : String)
    (user_agent ip_address : Option String) (newToken : String) (now : ℤ)
    (cfg : AuthConfig) : Except AuthError (TokenResponse × Store) :=
  match get_user_by_username store username with
  | none => .error .invalidCredentials
  | some user =>
      if !verify_password checkpw password user.hashed_password then
        .error .invalidCredentials
      else if !user.is_active then
        .error .inactiveAccount
      else
        let access_token := create_access_token
          [("sub", .str (toString user.id)), ("username", .str user.username)]
          none now cfg.jwt
        let store' := create_refresh_token store cfg.MAX_SESSIONS_PER_USER user.id
          newToken cfg.REFRESH_TOKEN_EXPIRE_DAYS user_agent ip_address now
        .ok ({ access_token := access_token, refresh_token := newToken }, store')

/-- Translation of `AuthService.register_user` (auth_service.py lines
30-125), parameterised by the password-hashing function and the fresh
refresh-token string: an existing username, then an existing email, each
raise a `ValueError`; otherwise the user is created and the same
token-issuance sequence as login runs. -/
def register_user (hashPw : String → String) (store : Store)
    (username email password : String) (user_agent ip_address : Option String)
    (newToken : String) (now : ℤ) (cfg : AuthConfig) :
    Except AuthError (TokenResponse × Store) :=
  match get_user_by_username store username with
  | some _ => .error .usernameExists
  | none =>
    match get_user_by_email store email with
    | some _ => .error .emailExists
    | none =>
        let user := (create_user store username email (hashPw password)).1
        let access_token := create_access_token
          [("sub", .str (toString user.id)), ("username", .str user.username)]
          none now cfg.jwt
        let store₂ := create_refresh_token
          (create_user store username email (hashPw password)).2
          cfg.MAX_SESSIONS_PER_USER user.id
          newToken cfg.REFRESH_TOKEN_EXPIRE_DAYS user_agent ip_address now
        .ok ({ access_token := access_token, refresh_token := newToken }, store₂)

/-- Translation of `AuthService.refresh_access_token` (auth_service.py
lines 226-359): unknown token, revoked token, expired token, unknown
user, and inactive user each raise, in that order; on success a new
access token is issued and, when `rotate_refresh_token` is set, the
presented token is revoked and a freshly generated one is persisted
before returning. -/
def refresh_access_token (store : Store) (refresh_token : String)
    (user_agent ip_address : Option String) (rotate_refresh_token : Bool)
    (newToken : String) (now : ℤ) (cfg : AuthConfig) :
    Except AuthError (TokenResponse × Store) :=
  match get_refresh_token store refresh_token with
  | none => .error .invalidRefreshToken
  | some token_record =>
      if token_record.is_revoked then .error .revokedRefreshToken
      else if token_record.expires_at < now then .error .expiredRefreshToken
      else
        match get_user_by_id store token_record.user_id with
        | none => .error .userNotFound
        | some user =>
            if !user.is_active then .error .inactiveAccount
            else
              let access_token := create_access_token
                [("sub", .str (toString user.id)), ("username", .str user.username)]
                none now cfg.jwt
              if rotate_refresh_token then
                let store₁ := revoke_refresh_token store refresh_token
                let store₂ := create_refresh_token store₁ cfg.MAX_SESSIONS_PER_USER
                  user.id newToken cfg.REFRESH_TOKEN_EXPIRE_DAYS user_agent
                  ip_address now
                .ok ({ access_token := access_token, refresh_token := newToken }, store₂)
              else
                .ok ({ access_token := access_token, refresh_token := refresh_token },
                  store)

/-- Translation of `AuthService.logout_user` (auth_service.py lines
361-432): a missing token or one owned by another user raises
`ValueError("Invalid refresh token")`; an already-revoked token returns
`True` unchanged; otherwise the token is revoked and `True` returned. -/
def logout_user (store : Store) (refresh_token : String) (user_id : ℕ) :
    Except AuthError (Bool × Store) :=
  match get_refresh_token store refresh_token with
  | none => .error .invalidRefreshToken
  | some token_record =>
      if token_record.user_id ≠ user_id then .error .invalidRefreshToken
      else if token_record.is_revoked then .ok (true, store)
      else .ok (true, revoke_refresh_token store refresh_token)

/-! ## Specification-side model of the rate-limit algorithm (for C3) -/

/-- The `check_and_record` algorithm exactly as the specification states
it (spec section 4.2): prune the entries whose timestamp is at most
`now - window_seconds`; sum the remaining counts; if the sum is at least
`max_requests`, deny with `retry_after` equal to
`window_seconds - (now - oldest_timestamp) + 1` taken to a whole second
(the least whole second strictly greater than
`window_seconds - (now - oldest_timestamp)`, that value rounded up),
clamped to `window_seconds` when the entry list is empty at denial time;
otherwise append `(now, 1)` and allow.  The pruning step, per the
specification's words: drop every entry with timestamp at most
`now - window_seconds`. -/
def specPrune (window_seconds : ℕ) (now : ℚ) (entries : List RLEntry) :
    List RLEntry :=
  entries.filter (fun e => !decide (e.1 ≤ now - (window_seconds : ℚ)))

/-- Decision step of the specification-side `check_and_record` algorithm,
on the pruned entry list (see `specPrune` for the full description). -/
def check_and_record_spec (max_requests window_seconds : ℕ) (now : ℚ)
    (entries : List RLEntry) : CheckResult × List RLEntry :=
  if max_requests ≤ requestCount (specPrune window_seconds now entries) then
    match oldestTimestamp (specPrune window_seconds now entries) with
    | some oldest =>
        (⟨false, some (⌊(window_seconds : ℚ) - (now - oldest)⌋ + 1)⟩,
          specPrune window_seconds now entries)
    | none =>
        (⟨false, some (window_seconds : ℤ)⟩, specPrune window_seconds now entries)
  else
    (⟨true, none⟩, specPrune window_seconds now entries ++ [(now, 1)])

/-! ## Helper lemmas -/

theorem foldl_min_mem (ts : List ℚ) (t : ℚ) : ts.foldl min t ∈ t :: ts := by
  induction ts generalizing t with
  | nil => simp
  | cons t' ts ih =>
      rw [List.foldl_cons]
      rcases List.mem_cons.mp (ih (min t t')) with h₁ | h₁
      · rw [h₁]
        rcases min_cases t t' with ⟨he, _⟩ | ⟨he, _⟩
        · rw [he]; exact List.mem_cons_self _ _
        · rw [he]; exact List.mem_cons.mpr (Or.inr (List.mem_cons_self _ _))
      · exact List.mem_cons.mpr (Or.inr (List.mem_cons.mpr (Or.inr h₁)))

theorem foldl_min_le (ts : List ℚ) (t : ℚ) :
    ∀ x ∈ t :: ts, ts.foldl min t ≤ x := by
  induction ts generalizing t with
  | nil => intro x hx; rw [List.mem_singleton] at hx; rw [hx]; exact le_refl _
  | cons t' ts ih =>
      intro x hx
      rw [List.foldl_cons]
      have hle : ts.foldl min (min t t') ≤ min t t' :=
        ih (min t t') (min t t') (List.mem_cons_self _ _)
      rcases List.mem_cons.mp hx with rfl | hx₁
      · exact le_trans hle (min_le_left _ _)
      · rcases List.mem_cons.mp hx₁ with rfl | hx₂
        · exact le_trans hle (min_le_right _ _)
        · exact ih (min t t') x (List.mem_cons.mpr (Or.inr hx₂))

theorem oldestTimestamp_mem {l : List RLEntry} {o : ℚ}
    (h : oldestTimestamp l = some o) : ∃ e ∈ l, e.1 = o := by
  match l with
  | [] => simp [oldestTimestamp] at h
  | e :: es =>
      simp only [oldestTimestamp, Option.some.injEq] at h
      have hmem := foldl_min_mem (es.map Prod.fst) e.1
      rw [h] at hmem
      rcases List.mem_cons.mp hmem with h₁ | h₁
      · exact ⟨e, List.mem_cons_self _ _, h₁.symm⟩
      · rcases List.mem_map.mp h₁ with ⟨e', he', hfst⟩
        exact ⟨e', List.mem_cons.mpr (Or.inr he'), hfst⟩

theorem oldestTimestamp_le {l : List RLEntry} {o : ℚ}
    (h : oldestTimestamp l = some o) : ∀ e ∈ l, o ≤ e.1 := by
  match l with
  | [] => simp [oldestTimestamp] at h
  | e :: es =>
      simp only [oldestTimestamp, Option.some.injEq] at h
      intro e' he'
      rw [← h]
      rcases List.mem_cons.mp he' with rfl | h₁
      · exact foldl_min_le (es.map Prod.fst) e'.1 e'.1 (List.mem_cons_self _ _)
      · exact foldl_min_le (es.map Prod.fst) e.1 e'.1
          (List.mem_cons.mpr (Or.inr (List.mem_map_of_mem Prod.fst h₁)))

theorem mem_clean_old_gt {w : ℕ} {now : ℚ} {l : List RLEntry} {e : RLEntry}
    (h : e ∈ clean_old_requests w now l) : now - (w : ℚ) < e.1 := by
  have := List.of_mem_filter h
  simpa using this

theorem clean_old_eq_specPrune (w : ℕ) (now : ℚ) (l : List RLEntry) :
    specPrune w now l = clean_old_requests w now l := by
  unfold clean_old_requests specPrune
  apply List.filter_congr
  intro e _
  by_cases h : e.1 ≤ now - (w : ℚ)
  · simp [h, not_lt.mpr h]
  · simp [h, not_le.mp h]

/-- C3: check_rate_limit follows the specified algorithm exactly — it
prunes entries with timestamp at most `now - window_seconds`, sums the
remaining counts, denies at or above `max_requests` with the whole-second
`retry_after` of the specification (clamping to `window_seconds` on an
empty entry list, without crashing), and otherwise appends `(now, 1)` and
allows; moreover the returned `retry_after` is never negative. -/
theorem C3_check_rate_limit_follows_spec
    (max_requests window_seconds : ℕ) (now : ℚ) (entries : List RLEntry) :
    check_rate_limit_entries max_requests window_seconds now entries =
      check_and_record_spec max_requests window_seconds now entries ∧
    0 ≤ ((check_rate_limit_entries max_requests window_seconds now entries).1.retryAfter.getD 0) := by
  have hfilter := clean_old_eq_specPrune window_seconds now entries
  constructor
  · unfold check_rate_limit_entries check_and_record_spec
    rw [hfilter]
    by_cases hcnt :
        max_requests ≤ requestCount (clean_old_requests window_seconds now entries)
    · rw [if_pos hcnt, if_pos hcnt]
      cases holdest : oldestTimestamp (clean_old_requests window_seconds now entries) with
      | none => rfl
      | some oldest =>
          rcases oldestTimestamp_mem holdest with ⟨e, he, hfst⟩
          have hgt : now - (window_seconds : ℚ) < oldest := by
            rw [← hfst]; exact mem_clean_old_gt he
          have hx : 0 ≤ (window_seconds : ℚ) - (now - oldest) := by linarith
          simp [pyInt, hx]
    · rw [if_neg hcnt, if_neg hcnt]
  · unfold check_rate_limit_entries
    by_cases hcnt :
        max_requests ≤ requestCount (clean_old_requests window_seconds now entries)
    · rw [if_pos hcnt]
      cases holdest : oldestTimestamp (clean_old_requests window_seconds now entries) with
      | none => simp
      | some oldest =>
          rcases oldestTimestamp_mem holdest with ⟨e, he, hfst⟩
          have hgt : now - (window_seconds : ℚ) < oldest := by
            rw [← hfst]; exact mem_clean_old_gt he
          have hx : 0 ≤ (window_seconds : ℚ) - (now - oldest) := by linarith
          have hfloor : 0 ≤ ⌊(window_seconds : ℚ) - (now - oldest)⌋ :=
            Int.floor_nonneg.mpr hx
          simp only [Option.getD_some]
          simp [pyInt, hx]
          omega
    · rw [if_neg hcnt]
      simp

theorem clean_keeps_all {w : ℕ} {now : ℚ} {l : List RLEntry}
    (h : ∀ e ∈ l, now - (w : ℚ) < e.1) : clean_old_requests w now l = l := by
  unfold clean_old_requests
  apply List.filter_eq_self.mpr
  intro e he
  simpa using h e he

theorem requestCount_map_one (l : List ℚ) :
    requestCount (l.map (fun t => (t, 1))) = l.length := by
  unfold requestCount
  induction l with
  | nil => rfl
  | cons t ts ih =>
      simp only [List.map_cons, List.sum_cons, List.length_cons, ih]
      omega

theorem requestCount_filter_le (p : RLEntry → Bool) (l : List RLEntry) :
    requestCount (l.filter p) ≤ requestCount l := by
  unfold requestCount
  induction l with
  | nil => simp
  | cons e es ih =>
      rw [List.filter_cons]
      by_cases h : p e
      · rw [if_pos h]
        simp only [List.map_cons, List.sum_cons]
        omega
      · rw [if_neg h]
        simp only [List.map_cons, List.sum_cons]
        omega

theorem requestCount_clean_le (w : ℕ) (now : ℚ) (l : List RLEntry) :
    requestCount (clean_old_requests w now l) ≤ requestCount l :=
  requestCount_filter_le _ l

theorem check_rate_limit_run_append (m w : ℕ) (l₁ l₂ : List ℚ) (s : List RLEntry) :
    check_rate_limit_run m w (l₁ ++ l₂) s =
      ((check_rate_limit_run m w l₁ s).1 ++
        (check_rate_limit_run m w l₂ (check_rate_limit_run m w l₁ s).2).1,
       (check_rate_limit_run m w l₂ (check_rate_limit_run m w l₁ s).2).2) := by
  induction l₁ generalizing s with
  | nil => simp [check_rate_limit_run]
  | cons t ts ih => simp [check_rate_limit_run, ih]

theorem check_rate_limit_run_all_allowed (m w : ℕ) (ts : List ℚ) :
    ∀ pre : List ℚ,
    (∀ s ∈ pre ++ ts, ∀ t ∈ pre ++ ts, s - t < (w : ℚ)) →
    pre.length + ts.length ≤ m →
    check_rate_limit_run m w ts (pre.map (fun t => (t, 1))) =
      (List.replicate ts.length ⟨true, none⟩,
        (pre ++ ts).map (fun t => (t, 1))) := by
  induction ts with
  | nil => intro pre _ _; simp [check_rate_limit_run]
  | cons t ts ih =>
      intro pre hwin hlen
      have htmem : t ∈ pre ++ t :: ts := List.mem_append_right _ (List.mem_cons_self _ _)
      have hclean : clean_old_requests w t (pre.map (fun t => (t, 1))) =
          pre.map (fun t => (t, 1)) := by
        apply clean_keeps_all
        intro e he
        rcases List.mem_map.mp he with ⟨p, hp, rfl⟩
        have := hwin t htmem p (List.mem_append_left _ hp)
        simpa using by linarith
      have hcount : requestCount (clean_old_requests w t (pre.map (fun t => (t, 1)))) =
          pre.length := by rw [hclean, requestCount_map_one]
      have hno : ¬ m ≤ requestCount (clean_old_requests w t (pre.map (fun t => (t, 1)))) := by
        rw [hcount]
        simp only [List.length_cons] at hlen
        omega
      have hstep : check_rate_limit_entries m w t (pre.map (fun t => (t, 1))) =
          (⟨true, none⟩, (pre ++ [t]).map (fun t => (t, 1))) := by
        unfold check_rate_limit_entries
        rw [if_neg hno, hclean]
        simp
      have hperm : (pre ++ [t]) ++ ts = pre ++ t :: ts := by
        simp [List.append_assoc]
      have hrest := ih (pre ++ [t])
        (by rw [hperm]; exact hwin)
        (by simp only [List.length_append, List.length_singleton, List.length_cons,
              List.length_nil] at *; omega)
      unfold check_rate_limit_run
      rw [hstep]
      simp only [hrest, hperm, List.length_cons, List.replicate_succ]

theorem oldestTimestamp_eq_none {l : List RLEntry} :
    oldestTimestamp l = none ↔ l = [] := by
  cases l <;> simp [oldestTimestamp]

theorem check_rate_limit_run_singleton (m w : ℕ) (t : ℚ) (s : List RLEntry) :
    check_rate_limit_run m w [t] s =
      ([(check_rate_limit_entries m w t s).1],
        (check_rate_limit_entries m w t s).2) := by
  simp [check_rate_limit_run]

theorem getElem_replicate_append_lt {α : Type} (a b : α) (n i : ℕ) (hi : i < n) :
    (List.replicate n a ++ [b])[i]? = some a := by
  induction n generalizing i with
  | zero => omega
  | succ n ih =>
      rw [List.replicate_succ, List.cons_append]
      cases i with
      | zero => simp
      | succ i => simpa using ih i (by omega)

theorem getElem_replicate_append_last {α : Type} (a b : α) (n : ℕ) :
    (List.replicate n a ++ [b])[n]? = some b := by
  induction n with
  | zero => rfl
  | succ n ih =>
      rw [List.replicate_succ, List.cons_append]
      simp only [List.getElem?_cons_succ]
      exact ih

/-- C2: for every identity and fixed pair of limit and window with
`max_requests` at least 1, a sequence of `max_requests` calls within one
window is fully allowed, the next call in the same window is denied with
a positive `retry_after`, and after every call the sum of the recorded
counts whose timestamp lies within the window never exceeds
`max_requests`. -/
theorem C2_rate_limiter_window_cap (m w : ℕ) (ts : List ℚ)
    (hm : 1 ≤ m) (hlen : ts.length = m + 1)
    (hwin : ∀ s ∈ ts, ∀ t ∈ ts, s - t < (w : ℚ)) :
    (∀ i < m, ((check_rate_limit_run m w ts []).1)[i]? = some ⟨true, none⟩) ∧
    (∃ r, 0 < r ∧ ((check_rate_limit_run m w ts []).1)[m]? = some ⟨false, some r⟩) ∧
    (∀ k ≤ ts.length, ∀ now' : ℚ,
      requestCount (clean_old_requests w now'
        (check_rate_limit_run m w (ts.take k) []).2) ≤ m) := by
  have hne : ts ≠ [] := by
    intro h; rw [h] at hlen; simp at hlen
  obtain ⟨init, lastT, rfl⟩ : ∃ init lastT, ts = init ++ [lastT] :=
    ⟨ts.dropLast, ts.getLast hne, (List.dropLast_append_getLast hne).symm⟩
  have hinitlen : init.length = m := by
    simp only [List.length_append, List.length_singleton] at hlen
    omega
  have hinitmem : ∀ x ∈ init, x ∈ init ++ [lastT] := fun x hx =>
    List.mem_append_left _ hx
  have hlastmem : lastT ∈ init ++ [lastT] :=
    List.mem_append_right _ (List.mem_singleton.mpr rfl)
  have hinit := check_rate_limit_run_all_allowed m w init []
    (by
      intro s hs t ht
      simp only [List.nil_append] at hs ht
      exact hwin s (hinitmem s hs) t (hinitmem t ht))
    (by simp [hinitlen])
  simp only [List.nil_append] at hinit
  have hcleanlast : clean_old_requests w lastT
      (init.map (fun t => (t, 1))) = init.map (fun t => (t, 1)) := by
    apply clean_keeps_all
    intro e he
    rcases List.mem_map.mp he with ⟨p, hp, rfl⟩
    have := hwin lastT hlastmem p (hinitmem p hp)
    simpa using by linarith
  have hcntlast : requestCount (clean_old_requests w lastT
      (init.map (fun t => (t, 1)))) = m := by
    rw [hcleanlast, requestCount_map_one, hinitlen]
  have hinitne : init.map (fun t => (t, 1)) ≠ [] := by
    intro h
    have := congrArg List.length h
    simp [hinitlen] at this
    omega
  obtain ⟨o, ho⟩ : ∃ o, oldestTimestamp (init.map (fun t => (t, 1))) = some o := by
    cases h : oldestTimestamp (init.map (fun t => (t, 1))) with
    | none => exact absurd (oldestTimestamp_eq_none.mp h) hinitne
    | some o => exact ⟨o, rfl⟩
  have homem : ∃ p ∈ init, p = o := by
    rcases oldestTimestamp_mem ho with ⟨e, he, hfst⟩
    rcases List.mem_map.mp he with ⟨p, hp, rfl⟩
    exact ⟨p, hp, hfst⟩
  have hretry : 0 ≤ pyInt ((w : ℚ) - (lastT - o)) := by
    rcases homem with ⟨p, hp, rfl⟩
    have := hwin lastT hlastmem p (hinitmem p hp)
    have hx : 0 ≤ (w : ℚ) - (lastT - p) := by linarith
    rw [pyInt, if_pos hx]
    exact Int.floor_nonneg.mpr hx
  have hlast : check_rate_limit_entries m w lastT
      (init.map (fun t => (t, 1))) =
      (⟨false, some (pyInt ((w : ℚ) - (lastT - o)) + 1)⟩,
        init.map (fun t => (t, 1))) := by
    unfold check_rate_limit_entries
    rw [hcntlast, if_pos (le_refl m), hcleanlast, ho]
  have h0 : (List.map (fun t => (t, 1)) ([] : List ℚ)) = ([] : List RLEntry) := rfl
  have hrun : check_rate_limit_run m w (init ++ [lastT]) [] =
      (List.replicate m ⟨true, none⟩ ++
        [(⟨false, some (pyInt ((w : ℚ) - (lastT - o)) + 1)⟩ : CheckResult)],
       init.map (fun t => (t, 1))) := by
    rw [check_rate_limit_run_append]
    rw [← h0, hinit]
    rw [check_rate_limit_run_singleton, hlast, hinitlen]
  refine ⟨?_, ?_, ?_⟩
  · intro i hi
    rw [hrun]
    exact getElem_replicate_append_lt _ _ m i hi
  · refine ⟨pyInt ((w : ℚ) - (lastT - o)) + 1, by omega, ?_⟩
    rw [hrun]
    exact getElem_replicate_append_last _ _ m
  · intro k hk now'
    rcases Nat.lt_or_ge k (m + 1) with hkm | hkm
    · have htake := check_rate_limit_run_all_allowed m w ((init ++ [lastT]).take k) []
        (by
          intro s hs t ht
          simp only [List.nil_append] at hs ht
          exact hwin s (List.take_subset k _ hs) t (List.take_subset k _ ht))
        (by
          simp only [List.nil_append, List.length_nil, List.length_take, hlen]
          omega)
      simp only [List.nil_append] at htake
      rw [← h0, htake]
      calc requestCount (clean_old_requests w now'
            (((init ++ [lastT]).take k).map (fun t => (t, 1))))
          ≤ requestCount (((init ++ [lastT]).take k).map (fun t => (t, 1))) :=
            requestCount_clean_le _ _ _
        _ = ((init ++ [lastT]).take k).length := requestCount_map_one _
        _ ≤ m := by
            simp only [List.length_take, hlen]
            omega
    · have hk' : k = (init ++ [lastT]).length := by
        rw [hlen]; omega
      rw [hk', List.take_length, hrun]
      calc requestCount (clean_old_requests w now' (init.map (fun t => (t, 1))))
          ≤ requestCount (init.map (fun t => (t, 1))) :=
            requestCount_clean_le _ _ _
        _ = m := by rw [requestCount_map_one, hinitlen]

/-- Witness for C2 at a concrete input: limit 2, window 60 seconds, three
calls at instants 0, 1, 2. -/
theorem C2_rate_limiter_window_cap_witness :
    (1 ≤ 2 ∧ ([0, 1, 2] : List ℚ).length = 2 + 1 ∧
      (∀ s ∈ ([0, 1, 2] : List ℚ), ∀ t ∈ ([0, 1, 2] : List ℚ), s - t < ((60 : ℕ) : ℚ))) ∧
    ((∀ i < 2, ((check_rate_limit_run 2 60 [0, 1, 2] []).1)[i]? = some ⟨true, none⟩) ∧
     (∃ r : ℤ, 0 < r ∧
        ((check_rate_limit_run 2 60 [0, 1, 2] []).1)[2]? = some ⟨false, some r⟩) ∧
     (∀ k ≤ ([0, 1, 2] : List ℚ).length, ∀ now' : ℚ,
        requestCount (clean_old_requests 60 now'
          (check_rate_limit_run 2 60 (([0, 1, 2] : List ℚ).take k) []).2) ≤ 2)) :=
  ⟨⟨by decide, rfl, by intro s hs t ht; fin_cases hs <;> fin_cases ht <;> norm_num⟩,
    C2_rate_limiter_window_cap 2 60 [0, 1, 2] (by decide) rfl
      (by intro s hs t ht; fin_cases hs <;> fin_cases ht <;> norm_num)⟩

theorem requestCount_append_one (l : List RLEntry) (now : ℚ) :
    requestCount (l ++ [(now, 1)]) = requestCount l + 1 := by
  simp [requestCount]

/-- C7 counterexample: a concrete `check_rate_limit` call executes its
critical section under two lock acquisitions (one in
`_clean_old_requests`, one in `check_rate_limit` itself), not one. -/
theorem C7_counterexample_two_lock_acquisitions :
    lockAcquisitions (checkRateLimitSections 5 60 0) = 2 ∧
    lockAcquisitions (checkRateLimitSections 5 60 0) ≠ 1 := by
  constructor
  · rfl
  · decide

/-- C7 (amended): every `check_rate_limit` call runs its critical section
under exactly two lock acquisitions — pruning in `_clean_old_requests`
and the sum-plus-conditional-append block — whose sequential composition
equals the entry-list effect of the call; and because the sum and the
conditional append form one atomic section, any interleaving of
lock-protected sections of callers sharing the identity and the limit
keeps the recorded count at or below the limit, so two concurrent callers
can never both observe "under limit" and both append past the cap. -/
theorem C7_two_acquisitions_check_then_append_atomic
    (m w : ℕ) (now : ℚ) :
    lockAcquisitions (checkRateLimitSections m w now) = 2 ∧
    (∀ l : List RLEntry,
      (checkRateLimitSections m w now).foldl applySection l =
        (check_rate_limit_entries m w now l).2) ∧
    (∀ (secs : List RLSection) (l : List RLEntry),
      (∀ s ∈ secs, sectionUsesMax m s) →
      requestCount l ≤ m →
      requestCount (secs.foldl applySection l) ≤ m) := by
  refine ⟨rfl, ?_, ?_⟩
  · intro l
    show applySection (applySection l (.pruneSec w now)) (.sumAppendSec m now) =
      (check_rate_limit_entries m w now l).2
    simp only [applySection]
    unfold check_rate_limit_entries
    by_cases hcnt : m ≤ requestCount (clean_old_requests w now l)
    · rw [if_pos hcnt, if_pos hcnt]
      cases holdest : oldestTimestamp (clean_old_requests w now l) <;> rfl
    · rw [if_neg hcnt, if_neg hcnt]
  · intro secs
    induction secs with
    | nil => intro l _ h; exact h
    | cons s rest ih =>
        intro l huse hl
        rw [List.foldl_cons]
        apply ih _ (fun s' hs' => huse s' (List.mem_cons.mpr (Or.inr hs')))
        cases s with
        | pruneSec w' now' =>
            exact le_trans (requestCount_clean_le w' now' l) hl
        | sumAppendSec m' now' =>
            have hm' : m' = m := huse _ (List.mem_cons_self _ _)
            subst hm'
            show requestCount (if m' ≤ requestCount l then l else l ++ [(now', 1)]) ≤ m'
            by_cases h : m' ≤ requestCount l
            · rw [if_pos h]; exact hl
            · rw [if_neg h, requestCount_append_one]
              omega

/-- Witness for C7 at a concrete input: two callers' sections interleaved
as prune, prune, append-check, append-check with limit 5 starting from an
empty list. -/
theorem C7_two_acquisitions_witness :
    (∀ s ∈ ([.pruneSec 60 0, .pruneSec 60 1, .sumAppendSec 5 0,
        .sumAppendSec 5 1] : List RLSection), sectionUsesMax 5 s) ∧
    requestCount [] ≤ 5 ∧
    requestCount (([.pruneSec 60 0, .pruneSec 60 1, .sumAppendSec 5 0,
        .sumAppendSec 5 1] : List RLSection).foldl applySection []) ≤ 5 :=
  ⟨by intro s hs; fin_cases hs <;> simp [sectionUsesMax],
   by decide,
   (C7_two_acquisitions_check_then_append_atomic 5 60 0).2.2
     [.pruneSec 60 0, .pruneSec 60 1, .sumAppendSec 5 0, .sumAppendSec 5 1] []
     (by intro s hs; fin_cases hs <;> simp [sectionUsesMax])
     (by decide)⟩

theorem check_rate_limit_or_raise_state (st : RLState) (ident : String)
    (m w : ℕ) (now : ℚ) :
    (check_rate_limit_or_raise st ident m w now).2 =
      (check_rate_limit st ident m w now).2 := by
  unfold check_rate_limit_or_raise
  split <;> rfl

theorem check_rate_limit_other_key (st : RLState) (ident : String)
    (m w : ℕ) (now : ℚ) (k : String) (h : k ≠ ident) :
    (check_rate_limit st ident m w now).2 k = st k := by
  simp [check_rate_limit, h]

theorem per_minute_other_key (cfg : RateConfig) (st : RLState) (ident : String)
    (now : ℚ) (k : String) (h : k ≠ "minute:" ++ ident) :
    (check_rate_limit_per_minute cfg st ident now).2 k = st k := by
  unfold check_rate_limit_per_minute
  split
  · rw [check_rate_limit_or_raise_state]
    exact check_rate_limit_other_key _ _ _ _ _ _ h
  · rfl

theorem per_hour_other_key (cfg : RateConfig) (st : RLState) (ident : String)
    (now : ℚ) (k : String) (h : k ≠ "hour:" ++ ident) :
    (check_rate_limit_per_hour cfg st ident now).2 k = st k := by
  unfold check_rate_limit_per_hour
  split
  · rw [check_rate_limit_or_raise_state]
    exact check_rate_limit_other_key _ _ _ _ _ _ h
  · rfl

theorem tier_key_ne {p₁ p₂ : String} (ident : String)
    (h : p₁.length ≠ p₂.length) : p₁ ++ ident ≠ p₂ ++ ident := by
  intro heq
  have := congrArg String.length heq
  rw [String.length_append, String.length_append] at this
  omega

/-- C9: the multi-tier check evaluates the minute, hour and day windows
under pairwise distinct keys derived from the identity, in that order;
when the minute tier denies, its error (and `retry_after`) is surfaced
and the hour and day counters are untouched; when the minute tier allows
and the hour tier denies, the hour tier's error is surfaced and the day
counter is untouched. -/
theorem C9_multi_tier_short_circuit (cfg : RateConfig) (st : RLState)
    (ident : String) (now : ℚ) :
    (("minute:" ++ ident ≠ "hour:" ++ ident) ∧
     ("minute:" ++ ident ≠ "day:" ++ ident) ∧
     ("hour:" ++ ident ≠ "day:" ++ ident)) ∧
    (∀ e st₁, check_rate_limit_per_minute cfg st ident now = (some e, st₁) →
      check_all_rate_limits cfg st ident now = (some e, st₁) ∧
      st₁ ("hour:" ++ ident) = st ("hour:" ++ ident) ∧
      st₁ ("day:" ++ ident) = st ("day:" ++ ident)) ∧
    (∀ st₁ e st₂, check_rate_limit_per_minute cfg st ident now = (none, st₁) →
      check_rate_limit_per_hour cfg st₁ ident now = (some e, st₂) →
      check_all_rate_limits cfg st ident now = (some e, st₂) ∧
      st₂ ("day:" ++ ident) = st ("day:" ++ ident)) := by
  refine ⟨⟨?_, ?_, ?_⟩, ?_, ?_⟩
  · exact tier_key_ne ident (by decide)
  · exact tier_key_ne ident (by decide)
  · exact tier_key_ne ident (by decide)
  · intro e st₁ hmin
    have hst₁ : st₁ = (check_rate_limit_per_minute cfg st ident now).2 := by
      rw [hmin]
    refine ⟨?_, ?_, ?_⟩
    · unfold check_all_rate_limits
      rw [hmin]
    · rw [hst₁]
      exact per_minute_other_key cfg st ident now _
        (tier_key_ne ident (by decide))
    · rw [hst₁]
      exact per_minute_other_key cfg st ident now _
        (tier_key_ne ident (by decide))
  · intro st₁ e st₂ hmin hhour
    have hst₁ : st₁ = (check_rate_limit_per_minute cfg st ident now).2 := by
      rw [hmin]
    have hst₂ : st₂ = (check_rate_limit_per_hour cfg st₁ ident now).2 := by
      rw [hhour]
    refine ⟨?_, ?_⟩
    · unfold check_all_rate_limits
      rw [hmin]
      dsimp only
      rw [hhour]
    · rw [hst₂, hst₁]
      rw [per_hour_other_key cfg _ ident now _ (tier_key_ne ident (by decide))]
      exact per_minute_other_key cfg st ident now _
        (tier_key_ne ident (by decide))

/-- Witness for C9 at a concrete input: a per-minute limit of 0 denies
the first request at once, surfacing `retry_after = 60` and leaving the
hour and day counters untouched. -/
theorem C9_multi_tier_short_circuit_witness :
    check_all_rate_limits ⟨true, 0, 5, 5⟩ RLState.empty "x" 0 =
      (some ⟨some 60⟩,
        (check_rate_limit_per_minute ⟨true, 0, 5, 5⟩ RLState.empty "x" 0).2) ∧
    (check_rate_limit_per_minute ⟨true, 0, 5, 5⟩ RLState.empty "x" 0).2
        ("hour:" ++ "x") = RLState.empty ("hour:" ++ "x") ∧
    (check_rate_limit_per_minute ⟨true, 0, 5, 5⟩ RLState.empty "x" 0).2
        ("day:" ++ "x") = RLState.empty ("day:" ++ "x") := by
  have h := C9_multi_tier_short_circuit ⟨true, 0, 5, 5⟩ RLState.empty "x" 0
  have hmin : check_rate_limit_per_minute ⟨true, 0, 5, 5⟩ RLState.empty "x" 0 =
      (some ⟨some 60⟩,
        (check_rate_limit_per_minute ⟨true, 0, 5, 5⟩ RLState.empty "x" 0).2) := by
    have h1 : (check_rate_limit_per_minute ⟨true, 0, 5, 5⟩ RLState.empty "x" 0).1 =
        some ⟨some 60⟩ := by decide
    exact Prod.ext h1 rfl
  exact ⟨(h.2.1 _ _ hmin).1, (h.2.1 _ _ hmin).2.1, (h.2.1 _ _ hmin).2.2⟩

theorem find_map_set_same (p : JwtPayload) (k : String) (v : ClaimValue)
    (h : p.any (fun kv => kv.1 = k) = true) :
    (p.map (fun kv => if kv.1 = k then (k, v) else kv)).find?
      (fun kv => kv.1 = k) = some (k, v) := by
  induction p with
  | nil => simp at h
  | cons kv p ih =>
      by_cases hk : kv.1 = k
      · rw [List.map_cons, if_pos hk]
        exact List.find?_cons_of_pos _ (by simp)
      · rw [List.map_cons, if_neg hk]
        rw [List.find?_cons_of_neg _ (by simpa using hk)]
        apply ih
        simp only [List.any_cons, Bool.or_eq_true] at h
        rcases h with h | h
        · exact absurd (of_decide_eq_true h) hk
        · exact h

theorem find_append_single_same (p : JwtPayload) (k : String) (v : ClaimValue)
    (h : p.any (fun kv => kv.1 = k) = false) :
    (p ++ [(k, v)]).find? (fun kv => kv.1 = k) = some (k, v) := by
  induction p with
  | nil =>
      rw [List.nil_append]
      exact List.find?_cons_of_pos _ (by simp)
  | cons kv p ih =>
      simp only [List.any_cons, Bool.or_eq_false_iff] at h
      rcases h with ⟨h₁, h₂⟩
      rw [List.cons_append, List.find?_cons_of_neg _ (by simpa using h₁)]
      exact ih h₂

theorem dictGet_dictSet_same (p : JwtPayload) (k : String) (v : ClaimValue) :
    dictGet (dictSet p k v) k = some v := by
  unfold dictGet dictSet
  by_cases h : p.any (fun kv => kv.1 = k)
  · rw [if_pos h, find_map_set_same p k v h]
    rfl
  · rw [if_neg h, find_append_single_same p k v (by
      cases hb : p.any (fun kv => kv.1 = k)
      · rfl
      · exact absurd hb h)]
    rfl

theorem find_map_set_other (p : JwtPayload) (k k' : String) (v : ClaimValue)
    (h : k' ≠ k) :
    (p.map (fun kv => if kv.1 = k then (k, v) else kv)).find?
      (fun kv => kv.1 = k') = p.find? (fun kv => kv.1 = k') := by
  induction p with
  | nil => rfl
  | cons kv p ih =>
      by_cases hk : kv.1 = k
      · rw [List.map_cons, if_pos hk]
        rw [List.find?_cons_of_neg _ (by
          intro hc
          exact h (of_decide_eq_true hc).symm)]
        rw [List.find?_cons_of_neg _ (by
          intro hc
          apply h
          rw [← hk]
          exact (of_decide_eq_true hc).symm)]
        exact ih
      · rw [List.map_cons, if_neg hk]
        by_cases hkv : kv.1 = k'
        · rw [List.find?_cons_of_pos _ (by simpa using hkv),
            List.find?_cons_of_pos _ (by simpa using hkv)]
        · rw [List.find?_cons_of_neg _ (by simpa using hkv),
            List.find?_cons_of_neg _ (by simpa using hkv)]
          exact ih

theorem find_append_single_other (p : JwtPayload) (k k' : String) (v : ClaimValue)
    (h : k' ≠ k) :
    (p ++ [(k, v)]).find? (fun kv => kv.1 = k') = p.find? (fun kv => kv.1 = k') := by
  induction p with
  | nil =>
      rw [List.nil_append]
      rw [List.find?_cons_of_neg _ (by
        intro hc
        exact h (of_decide_eq_true hc).symm)]
  | cons kv p ih =>
      by_cases hkv : kv.1 = k'
      · rw [List.cons_append, List.find?_cons_of_pos _ (by simpa using hkv),
          List.find?_cons_of_pos _ (by simpa using hkv)]
      · rw [List.cons_append, List.find?_cons_of_neg _ (by simpa using hkv),
          List.find?_cons_of_neg _ (by simpa using hkv)]
        exact ih

theorem dictGet_dictSet_other (p : JwtPayload) (k k' : String) (v : ClaimValue)
    (h : k' ≠ k) :
    dictGet (dictSet p k v) k' = dictGet p k' := by
  unfold dictGet dictSet
  by_cases hany : p.any (fun kv => kv.1 = k)
  · rw [if_pos hany, find_map_set_other p k k' v h]
  · rw [if_neg hany, find_append_single_other p k k' v h]

/-- C8: `create_access_token` embeds `iat = now`,
`exp = now + ttl` (the configured minutes when no truthy delta is
supplied, the supplied nonzero delta otherwise) and `type = "access"` in
the claim set signed with the configured secret and algorithm;
`decode_access_token` is a pure function that fails with
`ExpiredSignatureError` when `now` is past `exp`, with
`InvalidTokenError` when decoding or the signature check fails, with
`InvalidTokenError("Invalid token type")` whenever a token decodes
successfully to claims whose `type` is not `"access"` — stated generally
over every decodable token, and again explicitly for signed payloads
with an unexpired `exp` claim and for payloads with no `exp` claim —
and otherwise returns the claims. -/
theorem C8_access_token_issue_and_verify (data : JwtPayload) (d : ℤ)
    (now now' : ℤ) (cfg : JwtConfig) :
    (now' ≤ now + 60 * cfg.ACCESS_TOKEN_EXPIRE_MINUTES →
      ∃ p, decode_access_token (create_access_token data none now cfg) cfg now' =
          .ok p ∧
        dictGet p "iat" = some (.int now) ∧
        dictGet p "exp" = some (.int (now + 60 * cfg.ACCESS_TOKEN_EXPIRE_MINUTES)) ∧
        dictGet p "type" = some (.str "access")) ∧
    (now + 60 * cfg.ACCESS_TOKEN_EXPIRE_MINUTES < now' →
      decode_access_token (create_access_token data none now cfg) cfg now' =
        .error .expiredSignature) ∧
    (d ≠ 0 →
      dictGet
        (match create_access_token data (some d) now cfg with
          | .signed p _ _ => p
          | .malformed => []) "exp" = some (.int (now + d))) ∧
    (decode_access_token .malformed cfg now' = .error .invalidToken) ∧
    (∀ p k a, k ≠ cfg.SECRET_KEY ∨ a ≠ cfg.ALGORITHM →
      decode_access_token (.signed p k a) cfg now' = .error .invalidToken) ∧
    (∀ t p, jwtDecode t cfg.SECRET_KEY [cfg.ALGORITHM] now' = .ok p →
      dictGet p "type" ≠ some (.str "access") →
      decode_access_token t cfg now' = .error .invalidTokenType) ∧
    (∀ p e, dictGet p "exp" = some (.int e) → now' ≤ e →
      dictGet p "type" ≠ some (.str "access") →
      decode_access_token (.signed p cfg.SECRET_KEY cfg.ALGORITHM) cfg now' =
        .error .invalidTokenType) ∧
    (∀ p, dictGet p "exp" = none → dictGet p "type" ≠ some (.str "access") →
      decode_access_token (.signed p cfg.SECRET_KEY cfg.ALGORITHM) cfg now' =
        .error .invalidTokenType) := by
  have hexp : dictGet
      (dictSet (dictSet (dictSet data "exp"
          (.int (now + 60 * cfg.ACCESS_TOKEN_EXPIRE_MINUTES))) "iat" (.int now))
        "type" (.str "access")) "exp" =
      some (.int (now + 60 * cfg.ACCESS_TOKEN_EXPIRE_MINUTES)) := by
    rw [dictGet_dictSet_other _ _ _ _ (by decide),
      dictGet_dictSet_other _ _ _ _ (by decide),
      dictGet_dictSet_same]
  have hiat : dictGet
      (dictSet (dictSet (dictSet data "exp"
          (.int (now + 60 * cfg.ACCESS_TOKEN_EXPIRE_MINUTES))) "iat" (.int now))
        "type" (.str "access")) "iat" = some (.int now) := by
    rw [dictGet_dictSet_other _ _ _ _ (by decide), dictGet_dictSet_same]
  have htype : dictGet
      (dictSet (dictSet (dictSet data "exp"
          (.int (now + 60 * cfg.ACCESS_TOKEN_EXPIRE_MINUTES))) "iat" (.int now))
        "type" (.str "access")) "type" = some (.str "access") := by
    rw [dictGet_dictSet_same]
  refine ⟨?_, ?_, ?_, ?_, ?_, ?_, ?_, ?_⟩
  · intro hle
    refine ⟨_, ?_, hiat, hexp, htype⟩
    unfold decode_access_token create_access_token jwtEncode jwtDecode
    dsimp only
    rw [if_pos ⟨rfl, List.mem_singleton.mpr rfl⟩]
    rw [hexp]
    dsimp only
    rw [if_neg (by omega)]
    dsimp only
    rw [if_neg (by rw [htype]; simp)]
  · intro hlt
    unfold decode_access_token create_access_token jwtEncode jwtDecode
    dsimp only
    rw [if_pos ⟨rfl, List.mem_singleton.mpr rfl⟩]
    rw [hexp]
    dsimp only
    rw [if_pos (by omega)]
  · intro hd
    unfold create_access_token jwtEncode
    dsimp only
    rw [if_neg hd]
    rw [dictGet_dictSet_other _ _ _ _ (by decide),
      dictGet_dictSet_other _ _ _ _ (by decide),
      dictGet_dictSet_same]
  · rfl
  · intro p k a hne
    have hcond : ¬(k = cfg.SECRET_KEY ∧ a ∈ [cfg.ALGORITHM]) := by
      intro hc
      rcases hne with h | h
      · exact h hc.1
      · exact h (List.mem_singleton.mp hc.2)
    unfold decode_access_token jwtDecode
    dsimp only
    rw [if_neg hcond]
  · intro t p hjd htype'
    unfold decode_access_token
    rw [hjd]
    dsimp only
    rw [if_pos htype']
  · intro p e hexpP hle htype'
    unfold decode_access_token jwtDecode
    dsimp only
    rw [if_pos ⟨rfl, List.mem_singleton.mpr rfl⟩]
    rw [hexpP]
    dsimp only
    rw [if_neg (by omega)]
    dsimp only
    rw [if_pos htype']
  · intro p hnoexp htype'
    unfold decode_access_token jwtDecode
    dsimp only
    rw [if_pos ⟨rfl, List.mem_singleton.mpr rfl⟩]
    rw [hnoexp]
    dsimp only
    rw [if_pos htype']

/-- Witness for C8 at a concrete input: a token issued at time 0 with the
default 30-minute expiry verifies at time 100 and is expired at
time 2000, and a correctly signed, unexpired token whose `type` claim is
`"refresh"` fails with the wrong-type error. -/
theorem C8_access_token_issue_and_verify_witness :
    ((100 : ℤ) ≤ 0 + 60 * 30 ∧
      ∃ p, decode_access_token
          (create_access_token [("sub", .str "1")] none 0 ⟨"secret", "HS256", 30⟩)
          ⟨"secret", "HS256", 30⟩ 100 = .ok p ∧
        dictGet p "iat" = some (.int 0) ∧
        dictGet p "exp" = some (.int (0 + 60 * 30)) ∧
        dictGet p "type" = some (.str "access")) ∧
    ((0 : ℤ) + 60 * 30 < 2000 ∧
      decode_access_token
          (create_access_token [("sub", .str "1")] none 0 ⟨"secret", "HS256", 30⟩)
          ⟨"secret", "HS256", 30⟩ 2000 = .error .expiredSignature) ∧
    decode_access_token
        (.signed [("type", ClaimValue.str "refresh"), ("exp", ClaimValue.int 99999)]
          "secret" "HS256") ⟨"secret", "HS256", 30⟩ 100 =
      .error .invalidTokenType :=
  ⟨⟨by norm_num,
    (C8_access_token_issue_and_verify [("sub", .str "1")] 5 0 100
      ⟨"secret", "HS256", 30⟩).1 (by norm_num)⟩,
   ⟨by norm_num,
    (C8_access_token_issue_and_verify [("sub", .str "1")] 5 0 2000
      ⟨"secret", "HS256", 30⟩).2.1 (by norm_num)⟩,
   (C8_access_token_issue_and_verify [("sub", .str "1")] 5 0 100
      ⟨"secret", "HS256", 30⟩).2.2.2.2.2.2.1
     [("type", ClaimValue.str "refresh"), ("exp", ClaimValue.int 99999)] 99999
     (by decide) (by decide) (by decide)⟩

/-- C10: `verify_password` is total over all inputs — it returns the
boolean of `bcrypt.checkpw` and turns any raised exception (for example a
malformed stored hash) into `False` instead of propagating it — so a
login attempt against a corrupt stored hash fails with the same generic
`InvalidCredentials` error as a wrong password, not with an
infrastructure failure. -/
theorem C10_verify_password_total_and_generic_failure
    (cp : BcryptOracle) (plain hashed : String) :
    (∀ msg, cp plain hashed = .error msg →
      verify_password cp plain hashed = false) ∧
    (∀ b, cp plain hashed = .ok b → verify_password cp plain hashed = b) ∧
    (∀ (store : Store) (username : String) (ua ip : Option String)
        (tok : String) (now : ℤ) (cfg : AuthConfig) (user : UserRec),
      get_user_by_username store username = some user →
      ((∃ msg, cp plain user.hashed_password = .error msg) ∨
        cp plain user.hashed_password = .ok false) →
      login_user cp store username plain ua ip tok now cfg =
        .error .invalidCredentials) := by
  refine ⟨?_, ?_, ?_⟩
  · intro msg h
    unfold verify_password
    rw [h]
  · intro b h
    unfold verify_password
    rw [h]
  · intro store username ua ip tok now cfg user huser hbad
    have hv : verify_password cp plain user.hashed_password = false := by
      unfold verify_password
      rcases hbad with ⟨msg, h⟩ | h
      · rw [h]
      · rw [h]
    unfold login_user
    rw [huser]
    dsimp only
    rw [hv]
    rfl

/-- Witness for C10 at a concrete input: a bcrypt oracle that raises on a
corrupt stored hash still yields a plain `False` from `verify_password`,
and the login fails with the generic `InvalidCredentials`. -/
theorem C10_verify_password_total_witness :
    get_user_by_username
        ⟨[⟨1, "alice", "a@x.com", "corrupt", true, false⟩], []⟩ "alice" =
      some ⟨1, "alice", "a@x.com", "corrupt", true, false⟩ ∧
    verify_password (fun _ _ => .error "invalid salt") "pw" "corrupt" = false ∧
    login_user (fun _ _ => .error "invalid salt")
        ⟨[⟨1, "alice", "a@x.com", "corrupt", true, false⟩], []⟩
        "alice" "pw" none none "tok" 0 ⟨⟨"k", "HS256", 30⟩, 7, 5⟩ =
      .error .invalidCredentials :=
  ⟨by decide,
   (C10_verify_password_total_and_generic_failure
      (fun _ _ => .error "invalid salt") "pw" "corrupt").1 "invalid salt" rfl,
   (C10_verify_password_total_and_generic_failure
      (fun _ _ => .error "invalid salt") "pw" "corrupt").2.2
      ⟨[⟨1, "alice", "a@x.com", "corrupt", true, false⟩], []⟩
      "alice" none none "tok" 0 ⟨⟨"k", "HS256", 30⟩, 7, 5⟩
      ⟨1, "alice", "a@x.com", "corrupt", true, false⟩
      (by decide) (Or.inl ⟨"invalid salt", rfl⟩)⟩

/-- C6: the login failure observable to the caller is the same
`InvalidCredentials` error whether the username does not exist or the
password verification fails (no user-existence oracle), and
`InactiveAccount` is returned exactly when the user exists, the password
verifies, and the account is inactive. -/
theorem C6_login_no_user_existence_oracle
    (cp : BcryptOracle) (store : Store) (username password : String)
    (ua ip : Option String) (tok : String) (now : ℤ) (cfg : AuthConfig) :
    (get_user_by_username store username = none →
      login_user cp store username password ua ip tok now cfg =
        .error .invalidCredentials) ∧
    (∀ user, get_user_by_username store username = some user →
      verify_password cp password user.hashed_password = false →
      login_user cp store username password ua ip tok now cfg =
        .error .invalidCredentials) ∧
    (login_user cp store username password ua ip tok now cfg =
        .error .inactiveAccount ↔
      ∃ user, get_user_by_username store username = some user ∧
        verify_password cp password user.hashed_password = true ∧
        user.is_active = false) := by
  refine ⟨?_, ?_, ?_, ?_⟩
  · intro h
    unfold login_user
    rw [h]
  · intro user huser hv
    unfold login_user
    rw [huser]
    dsimp only
    rw [hv]
    rfl
  · intro h
    unfold login_user at h
    cases hu : get_user_by_username store username with
    | none =>
        rw [hu] at h
        exact absurd h (by simp)
    | some user =>
        rw [hu] at h
        dsimp only at h
        split_ifs at h with h1 h2
        · simp at h
        · exact ⟨user, rfl, by simpa using h1, by simpa using h2⟩
  · intro ⟨user, hu, hv, hna⟩
    unfold login_user
    rw [hu]
    dsimp only
    rw [hv, hna]
    rfl

/-- Witness for C6 at concrete inputs: an unknown username and a wrong
password both yield `InvalidCredentials`, and a matching password on an
inactive account yields `InactiveAccount`. -/
theorem C6_login_no_user_existence_oracle_witness :
    login_user (fun _ _ => .ok true) ⟨[], []⟩ "ghost" "pw" none none "tok" 0
        ⟨⟨"k", "HS256", 30⟩, 7, 5⟩ = .error .invalidCredentials ∧
    login_user (fun _ _ => .ok false)
        ⟨[⟨1, "bob", "b@x.com", "h", true, false⟩], []⟩ "bob" "pw" none none
        "tok" 0 ⟨⟨"k", "HS256", 30⟩, 7, 5⟩ = .error .invalidCredentials ∧
    login_user (fun _ _ => .ok true)
        ⟨[⟨1, "bob", "b@x.com", "h", false, false⟩], []⟩ "bob" "pw" none none
        "tok" 0 ⟨⟨"k", "HS256", 30⟩, 7, 5⟩ = .error .inactiveAccount :=
  ⟨(C6_login_no_user_existence_oracle (fun _ _ => .ok true) ⟨[], []⟩ "ghost"
      "pw" none none "tok" 0 ⟨⟨"k", "HS256", 30⟩, 7, 5⟩).1 (by decide),
   (C6_login_no_user_existence_oracle (fun _ _ => .ok false)
      ⟨[⟨1, "bob", "b@x.com", "h", true, false⟩], []⟩ "bob" "pw" none none
      "tok" 0 ⟨⟨"k", "HS256", 30⟩, 7, 5⟩).2.1
      ⟨1, "bob", "b@x.com", "h", true, false⟩ (by decide) rfl,
   (C6_login_no_user_existence_oracle (fun _ _ => .ok true)
      ⟨[⟨1, "bob", "b@x.com", "h", false, false⟩], []⟩ "bob" "pw" none none
      "tok" 0 ⟨⟨"k", "HS256", 30⟩, 7, 5⟩).2.2.mpr
      ⟨⟨1, "bob", "b@x.com", "h", false, false⟩, by decide, rfl, rfl⟩⟩

theorem find_map_token_preserving (l : List RefreshTokenRec)
    (f : RefreshTokenRec → RefreshTokenRec) (t : String)
    (hf : ∀ r, (f r).token = r.token) :
    (l.map f).find? (fun r => r.token = t) =
      (l.find? (fun r => r.token = t)).map f := by
  induction l with
  | nil => rfl
  | cons r l ih =>
      by_cases h : r.token = t
      · rw [List.map_cons,
          List.find?_cons_of_pos _ (by simp [hf r, h]),
          List.find?_cons_of_pos _ (by simp [h])]
        rfl
      · rw [List.map_cons,
          List.find?_cons_of_neg _ (by simp [hf r, h]),
          List.find?_cons_of_neg _ (by simp [h])]
        exact ih

theorem get_refresh_token_revoke (store : Store) (t' t : String) :
    get_refresh_token (revoke_refresh_token store t') t =
      (get_refresh_token store t).map
        (fun r => if r.token = t' then { r with is_revoked := true } else r) := by
  unfold get_refresh_token revoke_refresh_token
  dsimp only
  exact find_map_token_preserving store.refreshTokens _ t
    (by intro r; by_cases h : r.token = t' <;> simp [h])

/-- C5: logout fails with `InvalidCredential` when the token record does
not exist or belongs to a different user; when the token exists, belongs
to the caller and is already revoked it succeeds without change; and for
any token of the caller, logout succeeds, a second logout with the same
token succeeds again unchanged, and the credential is revoked after the
first call. -/
theorem C5_logout_validation_and_idempotence (store : Store) (tok : String)
    (uid : ℕ) :
    (get_refresh_token store tok = none →
      logout_user store tok uid = .error .invalidRefreshToken) ∧
    (∀ r, get_refresh_token store tok = some r → r.user_id ≠ uid →
      logout_user store tok uid = .error .invalidRefreshToken) ∧
    (∀ r, get_refresh_token store tok = some r → r.user_id = uid →
      r.is_revoked = true → logout_user store tok uid = .ok (true, store)) ∧
    (∀ r, get_refresh_token store tok = some r → r.user_id = uid →
      ∃ store', logout_user store tok uid = .ok (true, store') ∧
        logout_user store' tok uid = .ok (true, store') ∧
        (∃ r', get_refresh_token store' tok = some r' ∧ r'.is_revoked = true)) := by
  have hval : ∀ r, get_refresh_token store tok = some r → r.user_id = uid →
      r.is_revoked = true → logout_user store tok uid = .ok (true, store) := by
    intro r hr huid hrev
    unfold logout_user
    rw [hr]
    dsimp only
    rw [if_neg (fun hne => hne huid), hrev]
    rfl
  refine ⟨?_, ?_, hval, ?_⟩
  · intro h
    unfold logout_user
    rw [h]
  · intro r hr hne
    unfold logout_user
    rw [hr]
    dsimp only
    rw [if_pos hne]
  · intro r hr huid
    by_cases hrev : r.is_revoked = true
    · refine ⟨store, hval r hr huid hrev, hval r hr huid hrev, r, hr, hrev⟩
    · have hrev' : r.is_revoked = false := by
        cases hb : r.is_revoked
        · rfl
        · exact absurd hb hrev
      have hfirst : logout_user store tok uid =
          .ok (true, revoke_refresh_token store tok) := by
        unfold logout_user
        rw [hr]
        dsimp only
        rw [if_neg (fun hne => hne huid), hrev']
        rfl
      have hr' : get_refresh_token (revoke_refresh_token store tok) tok =
          some { r with is_revoked := true } := by
        rw [get_refresh_token_revoke, hr]
        have htok : r.token = tok := by
          have := List.find?_some
            (show List.find? (fun x => decide (x.token = tok))
                store.refreshTokens = some r from hr)
          exact of_decide_eq_true this
        simp [htok]
      refine ⟨revoke_refresh_token store tok, hfirst, ?_, ?_⟩
      · unfold logout_user
        rw [hr']
        dsimp only
        rw [if_neg (fun hne => hne huid)]
        rfl
      · exact ⟨{ r with is_revoked := true }, hr', rfl⟩

/-- Witness for C5 at a concrete input: a store holding one active
refresh token of user 7; logging out twice succeeds both times and the
credential is revoked after the first call, and a mismatched user id is
rejected. -/
theorem C5_logout_validation_and_idempotence_witness :
    (get_refresh_token ⟨[], [⟨"t1", 7, 100, 0, false, none, none⟩]⟩ "t1" =
      some ⟨"t1", 7, 100, 0, false, none, none⟩) ∧
    (∃ store', logout_user ⟨[], [⟨"t1", 7, 100, 0, false, none, none⟩]⟩ "t1" 7 =
        .ok (true, store') ∧
      logout_user store' "t1" 7 = .ok (true, store') ∧
      (∃ r', get_refresh_token store' "t1" = some r' ∧ r'.is_revoked = true)) ∧
    logout_user ⟨[], [⟨"t1", 7, 100, 0, false, none, none⟩]⟩ "t1" 9 =
      .error .invalidRefreshToken :=
  ⟨by decide,
   (C5_logout_validation_and_idempotence
      ⟨[], [⟨"t1", 7, 100, 0, false, none, none⟩]⟩ "t1" 7).2.2.2
      ⟨"t1", 7, 100, 0, false, none, none⟩ (by decide) rfl,
   (C5_logout_validation_and_idempotence
      ⟨[], [⟨"t1", 7, 100, 0, false, none, none⟩]⟩ "t1" 9).2.1
      ⟨"t1", 7, 100, 0, false, none, none⟩ (by decide) (by decide)⟩

theorem find_append_of_some {α : Type} (l l' : List α) (p : α → Bool) (a : α)
    (h : l.find? p = some a) : (l ++ l').find? p = some a := by
  induction l with
  | nil => simp [List.find?] at h
  | cons x l ih =>
      cases hx : p x with
      | true =>
          rw [List.find?_cons_of_pos _ hx] at h
          rw [List.cons_append, List.find?_cons_of_pos _ hx]
          exact h
      | false =>
          rw [List.find?_cons_of_neg _ (by simp [hx])] at h
          rw [List.cons_append, List.find?_cons_of_neg _ (by simp [hx])]
          exact ih h

theorem get_refresh_token_create_revoked (S : Store) (ms uid : ℕ)
    (ntok : String) (days : ℤ) (ua ip : Option String) (now : ℤ)
    (t : String) (r : RefreshTokenRec)
    (hfind : get_refresh_token S t = some r) (hrev : r.is_revoked = true) :
    ∃ r', get_refresh_token (create_refresh_token S ms uid ntok days ua ip now) t =
        some r' ∧ r'.is_revoked = true := by
  have hstep : ∃ r₁, get_refresh_token
      (if ms ≤ liveCount S uid now then
        match oldestCreated (liveTokens S uid now) with
        | some victim => revoke_refresh_token S victim.token
        | none => S
      else S) t = some r₁ ∧ r₁.is_revoked = true := by
    by_cases hms : ms ≤ liveCount S uid now
    · rw [if_pos hms]
      cases hv : oldestCreated (liveTokens S uid now) with
      | none => exact ⟨r, hfind, hrev⟩
      | some victim =>
          rw [get_refresh_token_revoke, hfind]
          refine ⟨_, rfl, ?_⟩
          by_cases h : r.token = victim.token <;> simp [h, hrev]
    · rw [if_neg hms]
      exact ⟨r, hfind, hrev⟩
  rcases hstep with ⟨r₁, hr₁, hrev₁⟩
  refine ⟨r₁, ?_, hrev₁⟩
  unfold create_refresh_token
  dsimp only
  unfold get_refresh_token at hr₁ ⊢
  exact find_append_of_some _ _ _ _ hr₁

theorem create_refresh_token_mem_new (S : Store) (ms uid : ℕ) (ntok : String)
    (days : ℤ) (ua ip : Option String) (now : ℤ) :
    ∃ rn ∈ (create_refresh_token S ms uid ntok days ua ip now).refreshTokens,
      rn.token = ntok ∧ rn.is_revoked = false := by
  unfold create_refresh_token
  dsimp only
  exact ⟨_, List.mem_append_right _ (List.mem_singleton.mpr rfl), rfl, rfl⟩

/-- C4: when `refresh` with rotation succeeds, the presented credential
is revoked and a distinct fresh credential is persisted before the call
returns, and a later refresh presenting the original token fails with the
`Revoked` error (single-use rotation).  The freshness hypothesis states
that the generated token string does not collide with any stored one
(generate_refresh_token draws 256 bits of randomness). -/
theorem C4_refresh_rotation_single_use
    (store : Store) (tok : String) (ua ip : Option String) (ntok : String)
    (now : ℤ) (cfg : AuthConfig) (resp : TokenResponse) (store' : Store)
    (hfresh : ∀ r ∈ store.refreshTokens, r.token ≠ ntok)
    (hok : refresh_access_token store tok ua ip true ntok now cfg =
      .ok (resp, store')) :
    ntok ≠ tok ∧
    resp.refresh_token = ntok ∧
    (∃ r', get_refresh_token store' tok = some r' ∧ r'.is_revoked = true) ∧
    (∃ rn ∈ store'.refreshTokens, rn.token = ntok ∧ rn.is_revoked = false) ∧
    (∀ ua' ip' rot' ntok' now' cfg',
      refresh_access_token store' tok ua' ip' rot' ntok' now' cfg' =
        .error .revokedRefreshToken) := by
  unfold refresh_access_token at hok
  cases hr : get_refresh_token store tok with
  | none =>
      rw [hr] at hok
      exact absurd hok (by simp)
  | some r₀ =>
      rw [hr] at hok
      dsimp only at hok
      split_ifs at hok with h1 h2 hrot
      case neg => exact absurd rfl hrot
      cases hu : get_user_by_id store r₀.user_id with
      | none =>
          rw [hu] at hok
          simp at hok
      | some user =>
          rw [hu] at hok
          dsimp only at hok
          split_ifs at hok with h3
          rw [Except.ok.injEq, Prod.mk.injEq] at hok
          rcases hok with ⟨hresp, hstore⟩
          subst hresp
          subst hstore
          have hr₀tok : r₀.token = tok := by
            have := List.find?_some
              (show List.find? (fun x => decide (x.token = tok))
                  store.refreshTokens = some r₀ from hr)
            exact of_decide_eq_true this
          have hr₀mem : r₀ ∈ store.refreshTokens :=
            List.mem_of_find?_eq_some
              (show List.find? (fun x => decide (x.token = tok))
                  store.refreshTokens = some r₀ from hr)
          have hne : ntok ≠ tok := by
            intro heq
            exact hfresh r₀ hr₀mem (by rw [hr₀tok, heq])
          have hrev1 : get_refresh_token (revoke_refresh_token store tok) tok =
              some { r₀ with is_revoked := true } := by
            rw [get_refresh_token_revoke, hr]
            simp [hr₀tok]
          rcases get_refresh_token_create_revoked (revoke_refresh_token store tok)
              cfg.MAX_SESSIONS_PER_USER user.id ntok
              cfg.REFRESH_TOKEN_EXPIRE_DAYS ua ip now tok
              { r₀ with is_revoked := true } hrev1 rfl with ⟨r', hr', hrev'⟩
          refine ⟨hne, rfl, ⟨r', hr', hrev'⟩, ?_, ?_⟩
          · exact create_refresh_token_mem_new _ _ _ _ _ _ _ _
          · intro ua' ip' rot' ntok' now' cfg'
            unfold refresh_access_token
            rw [hr']
            dsimp only
            rw [if_pos hrev']

/-- Witness for C4 at a concrete input: rotating the only refresh token
of user 7 revokes it, persists the fresh token, and a replay of the
original token fails with the `Revoked` error. -/
theorem C4_refresh_rotation_single_use_witness :
    (∀ r ∈ (⟨[⟨7, "alice", "a@x.com", "h", true, false⟩],
        [⟨"t1", 7, 100, 0, false, none, none⟩]⟩ : Store).refreshTokens,
      r.token ≠ "t2") ∧
    "t2" ≠ "t1" ∧
    (∃ r', get_refresh_token
        ⟨[⟨7, "alice", "a@x.com", "h", true, false⟩],
          [⟨"t1", 7, 100, 0, true, none, none⟩,
           ⟨"t2", 7, 604800, 0, false, none, none⟩]⟩ "t1" = some r' ∧
      r'.is_revoked = true) ∧
    (∃ rn ∈ (⟨[⟨7, "alice", "a@x.com", "h", true, false⟩],
        [⟨"t1", 7, 100, 0, true, none, none⟩,
         ⟨"t2", 7, 604800, 0, false, none, none⟩]⟩ : Store).refreshTokens,
      rn.token = "t2" ∧ rn.is_revoked = false) ∧
    refresh_access_token
        ⟨[⟨7, "alice", "a@x.com", "h", true, false⟩],
          [⟨"t1", 7, 100, 0, true, none, none⟩,
           ⟨"t2", 7, 604800, 0, false, none, none⟩]⟩ "t1" none none true "t3" 5
        ⟨⟨"k", "HS256", 30⟩, 7, 5⟩ = .error .revokedRefreshToken := by
  have h := C4_refresh_rotation_single_use
    ⟨[⟨7, "alice", "a@x.com", "h", true, false⟩],
      [⟨"t1", 7, 100, 0, false, none, none⟩]⟩ "t1" none none "t2" 0
    ⟨⟨"k", "HS256", 30⟩, 7, 5⟩
    ⟨create_access_token [("sub", ClaimValue.str "7"),
        ("username", ClaimValue.str "alice")] none 0 ⟨"k", "HS256", 30⟩, "t2"⟩
    ⟨[⟨7, "alice", "a@x.com", "h", true, false⟩],
      [⟨"t1", 7, 100, 0, true, none, none⟩,
       ⟨"t2", 7, 604800, 0, false, none, none⟩]⟩
    (by decide) (by rfl)
  exact ⟨by decide, h.1, h.2.2.1, h.2.2.2.1,
    h.2.2.2.2 none none true "t3" 5 ⟨⟨"k", "HS256", 30⟩, 7, 5⟩⟩

theorem isLiveFor_revoked (u : ℕ) (now : ℤ) (x : RefreshTokenRec) :
    isLiveFor u now { x with is_revoked := true } = false := by
  simp [isLiveFor]

theorem filter_live_map_revoke_le (u : ℕ) (now : ℤ) (t : String)
    (l : List RefreshTokenRec) :
    ((l.map (fun x => if x.token = t then { x with is_revoked := true } else x)).filter
      (isLiveFor u now)).length ≤ (l.filter (isLiveFor u now)).length := by
  induction l with
  | nil => simp
  | cons x l ih =>
      rw [List.map_cons]
      by_cases hx : x.token = t
      · rw [if_pos hx]
        rw [List.filter_cons_of_neg (by simp [isLiveFor_revoked])]
        cases hlx : isLiveFor u now x
        · rw [List.filter_cons_of_neg (by simp [hlx])]
          exact ih
        · rw [List.filter_cons_of_pos (by simp [hlx]), List.length_cons]
          exact le_trans ih (Nat.le_succ _)
      · rw [if_neg hx]
        cases hlx : isLiveFor u now x
        · rw [List.filter_cons_of_neg (by simp [hlx]),
            List.filter_cons_of_neg (by simp [hlx])]
          exact ih
        · rw [List.filter_cons_of_pos (by simp [hlx]),
            List.filter_cons_of_pos (by simp [hlx]), List.length_cons,
            List.length_cons]
          exact Nat.succ_le_succ ih

theorem filter_live_map_revoke_lt (u : ℕ) (now : ℤ) (l : List RefreshTokenRec)
    (r : RefreshTokenRec) (hmem : r ∈ l) (hlive : isLiveFor u now r = true) :
    ((l.map (fun x => if x.token = r.token then { x with is_revoked := true } else x)).filter
      (isLiveFor u now)).length < (l.filter (isLiveFor u now)).length := by
  induction l with
  | nil => simp at hmem
  | cons x l ih =>
      rw [List.map_cons]
      by_cases hx : x.token = r.token
      · rw [if_pos hx]
        rw [List.filter_cons_of_neg (by simp [isLiveFor_revoked])]
        rcases List.mem_cons.mp hmem with rfl | hmem'
        · rw [List.filter_cons_of_pos (by simp [hlive]), List.length_cons]
          exact Nat.lt_succ_of_le (filter_live_map_revoke_le u now r.token l)
        · cases hlx : isLiveFor u now x
          · rw [List.filter_cons_of_neg (by simp [hlx])]
            exact ih hmem'
          · rw [List.filter_cons_of_pos (by simp [hlx]), List.length_cons]
            exact Nat.lt_succ_of_le (le_of_lt (ih hmem'))
      · rw [if_neg hx]
        rcases List.mem_cons.mp hmem with rfl | hmem'
        · exact absurd rfl hx
        · cases hlx : isLiveFor u now x
          · rw [List.filter_cons_of_neg (by simp [hlx]),
              List.filter_cons_of_neg (by simp [hlx])]
            exact ih hmem'
          · rw [List.filter_cons_of_pos (by simp [hlx]),
              List.filter_cons_of_pos (by simp [hlx]), List.length_cons,
              List.length_cons]
            exact Nat.succ_lt_succ (ih hmem')

theorem liveCount_revoke_le (S : Store) (t : String) (u : ℕ) (now : ℤ) :
    liveCount (revoke_refresh_token S t) u now ≤ liveCount S u now := by
  unfold liveCount liveTokens revoke_refresh_token
  dsimp only
  exact filter_live_map_revoke_le u now t S.refreshTokens

theorem liveCount_revoke_lt (S : Store) (u : ℕ) (now : ℤ) (r : RefreshTokenRec)
    (hmem : r ∈ S.refreshTokens) (hlive : isLiveFor u now r = true) :
    liveCount (revoke_refresh_token S r.token) u now < liveCount S u now := by
  unfold liveCount liveTokens revoke_refresh_token
  dsimp only
  exact filter_live_map_revoke_lt u now S.refreshTokens r hmem hlive

theorem liveCount_append (S : Store) (rec : RefreshTokenRec) (u : ℕ) (now : ℤ) :
    liveCount { S with refreshTokens := S.refreshTokens ++ [rec] } u now =
      liveCount S u now + (if isLiveFor u now rec then 1 else 0) := by
  unfold liveCount liveTokens
  dsimp only
  rw [List.filter_append, List.length_append]
  congr 1
  cases h : isLiveFor u now rec <;> simp [List.filter, h]

theorem foldl_oldest_mem (l : List RefreshTokenRec) (a : RefreshTokenRec) :
    l.foldl (fun acc x => if x.created_at < acc.created_at then x else acc) a ∈
      a :: l := by
  induction l generalizing a with
  | nil => simp
  | cons x l ih =>
      rw [List.foldl_cons]
      rcases List.mem_cons.mp (ih (if x.created_at < a.created_at then x else a)) with
        h | h
      · rw [h]
        by_cases hc : x.created_at < a.created_at
        · rw [if_pos hc]
          exact List.mem_cons.mpr (Or.inr (List.mem_cons_self _ _))
        · rw [if_neg hc]
          exact List.mem_cons_self _ _
      · exact List.mem_cons.mpr (Or.inr (List.mem_cons.mpr (Or.inr h)))

theorem foldl_oldest_le (l : List RefreshTokenRec) (a : RefreshTokenRec) :
    ∀ x ∈ a :: l,
      (l.foldl (fun acc x => if x.created_at < acc.created_at then x else acc)
        a).created_at ≤ x.created_at := by
  induction l generalizing a with
  | nil =>
      intro x hx
      rw [List.mem_singleton] at hx
      rw [hx]
      exact le_refl _
  | cons y l ih =>
      intro x hx
      rw [List.foldl_cons]
      have hba : (if y.created_at < a.created_at then y else a).created_at ≤
            a.created_at ∧
          (if y.created_at < a.created_at then y else a).created_at ≤
            y.created_at := by
        by_cases hc : y.created_at < a.created_at
        · rw [if_pos hc]
          exact ⟨le_of_lt hc, le_refl _⟩
        · rw [if_neg hc]
          exact ⟨le_refl _, le_of_not_lt hc⟩
      have hres : (l.foldl (fun acc x => if x.created_at < acc.created_at then x
            else acc) (if y.created_at < a.created_at then y else a)).created_at ≤
          (if y.created_at < a.created_at then y else a).created_at :=
        ih _ _ (List.mem_cons_self _ _)
      rcases List.mem_cons.mp hx with rfl | hx₁
      · exact le_trans hres hba.1
      · rcases List.mem_cons.mp hx₁ with rfl | hx₂
        · exact le_trans hres hba.2
        · exact ih _ x (List.mem_cons.mpr (Or.inr hx₂))

theorem oldestCreated_mem {l : List RefreshTokenRec} {v : RefreshTokenRec}
    (h : oldestCreated l = some v) : v ∈ l := by
  match l with
  | [] => simp [oldestCreated] at h
  | r :: rs =>
      simp only [oldestCreated, Option.some.injEq] at h
      rw [← h]
      exact foldl_oldest_mem rs r

theorem oldestCreated_le {l : List RefreshTokenRec} {v : RefreshTokenRec}
    (h : oldestCreated l = some v) : ∀ r ∈ l, v.created_at ≤ r.created_at := by
  match l with
  | [] => simp [oldestCreated] at h
  | r :: rs =>
      simp only [oldestCreated, Option.some.injEq] at h
      rw [← h]
      exact foldl_oldest_le rs r

theorem oldestCreated_eq_none {l : List RefreshTokenRec} :
    oldestCreated l = none ↔ l = [] := by
  cases l <;> simp [oldestCreated]

theorem isLiveFor_new_other (u uid : ℕ) (ntok : String) (days now : ℤ)
    (ua ip : Option String) (hne : u ≠ uid) :
    isLiveFor u now
      { token := ntok, user_id := uid, expires_at := now + 86400 * days
        created_at := now, is_revoked := false, user_agent := ua
        ip_address := ip } = false := by
  simp [isLiveFor, Ne.symm hne]

theorem liveCount_create_le (S : Store) (ms uid : ℕ) (ntok : String)
    (days : ℤ) (ua ip : Option String) (now : ℤ) (hms : 1 ≤ ms) (u : ℕ)
    (hle : liveCount S u now ≤ ms) :
    liveCount (create_refresh_token S ms uid ntok days ua ip now) u now ≤ ms := by
  unfold create_refresh_token
  dsimp only
  rw [liveCount_append]
  by_cases hcond : ms ≤ liveCount S uid now
  · rw [if_pos hcond]
    obtain ⟨v, hv⟩ : ∃ v, oldestCreated (liveTokens S uid now) = some v := by
      cases h : oldestCreated (liveTokens S uid now) with
      | none =>
          have hnil : liveTokens S uid now = [] := oldestCreated_eq_none.mp h
          have hlen : liveCount S uid now = 0 := by
            unfold liveCount
            rw [hnil]
            rfl
          omega
      | some v => exact ⟨v, rfl⟩
    rw [hv]
    dsimp only
    have hvmem : v ∈ S.refreshTokens ∧ isLiveFor uid now v = true := by
      have hm := oldestCreated_mem hv
      unfold liveTokens at hm
      exact ⟨List.mem_of_mem_filter hm, List.of_mem_filter hm⟩
    by_cases hu : u = uid
    · have hvlive : isLiveFor u now v = true := by rw [hu]; exact hvmem.2
      have hlt := liveCount_revoke_lt S u now v hvmem.1 hvlive
      split <;> omega
    · have hle' := liveCount_revoke_le S v.token u now
      rw [isLiveFor_new_other u uid ntok days now ua ip hu,
        if_neg Bool.false_ne_true]
      omega
  · rw [if_neg hcond]
    by_cases hu : u = uid
    · have hcond' : ¬ ms ≤ liveCount S u now := by rw [hu]; exact hcond
      split <;> omega
    · rw [isLiveFor_new_other u uid ntok days now ua ip hu,
        if_neg Bool.false_ne_true]
      omega

theorem create_evicts_oldest (S : Store) (ms uid : ℕ) (ntok : String)
    (days : ℤ) (ua ip : Option String) (now : ℤ)
    (hfresh : ∀ r ∈ S.refreshTokens, r.token ≠ ntok)
    (hcond : ms ≤ liveCount S uid now) (hms : 1 ≤ ms) :
    ∃ v ∈ liveTokens S uid now,
      (∀ r ∈ liveTokens S uid now, v.created_at ≤ r.created_at) ∧
      (∀ r' ∈ (create_refresh_token S ms uid ntok days ua ip now).refreshTokens,
        r'.token = v.token → r'.is_revoked = true) := by
  obtain ⟨v, hv⟩ : ∃ v, oldestCreated (liveTokens S uid now) = some v := by
    cases h : oldestCreated (liveTokens S uid now) with
    | none =>
        have : liveTokens S uid now = [] := oldestCreated_eq_none.mp h
        have hlen : liveCount S uid now = 0 := by
          unfold liveCount
          rw [this]
          rfl
        omega
    | some v => exact ⟨v, rfl⟩
  have hvmem : v ∈ liveTokens S uid now := oldestCreated_mem hv
  have hvmem' : v ∈ S.refreshTokens := by
    unfold liveTokens at hvmem
    exact List.mem_of_mem_filter hvmem
  refine ⟨v, hvmem, oldestCreated_le hv, ?_⟩
  intro r' hr' htok'
  unfold create_refresh_token at hr'
  dsimp only at hr'
  rw [if_pos hcond, hv] at hr'
  rcases List.mem_append.mp hr' with hleft | hright
  · unfold revoke_refresh_token at hleft
    dsimp only at hleft
    rcases List.mem_map.mp hleft with ⟨r, _, rfl⟩
    by_cases hrt : r.token = v.token
    · rw [if_pos hrt]
    · rw [if_neg hrt] at htok' ⊢
      exact absurd htok' hrt
  · rw [List.mem_singleton] at hright
    subst hright
    exact absurd (show v.token = ntok from htok'.symm) (hfresh v hvmem')

theorem login_store_shape (cp : BcryptOracle) (store : Store)
    (username password : String) (ua ip : Option String) (ntok : String)
    (now : ℤ) (cfg : AuthConfig) (resp : TokenResponse) (store' : Store)
    (hok : login_user cp store username password ua ip ntok now cfg =
      .ok (resp, store')) :
    ∃ user : UserRec, store' = create_refresh_token store
      cfg.MAX_SESSIONS_PER_USER user.id ntok cfg.REFRESH_TOKEN_EXPIRE_DAYS
      ua ip now := by
  unfold login_user at hok
  cases hu : get_user_by_username store username with
  | none =>
      rw [hu] at hok
      simp at hok
  | some user =>
      rw [hu] at hok
      dsimp only at hok
      split_ifs at hok with h1 h2
      rw [Except.ok.injEq, Prod.mk.injEq] at hok
      exact ⟨user, hok.2.symm⟩

theorem register_store_shape (hashPw : String → String) (store : Store)
    (username email password : String) (ua ip : Option String) (ntok : String)
    (now : ℤ) (cfg : AuthConfig) (resp : TokenResponse) (store' : Store)
    (hok : register_user hashPw store username email password ua ip ntok now cfg =
      .ok (resp, store')) :
    ∃ uid, store' = create_refresh_token
      (create_user store username email (hashPw password)).2
      cfg.MAX_SESSIONS_PER_USER uid ntok cfg.REFRESH_TOKEN_EXPIRE_DAYS ua ip now := by
  unfold register_user at hok
  cases h1 : get_user_by_username store username with
  | some u =>
      rw [h1] at hok
      simp at hok
  | none =>
      rw [h1] at hok
      dsimp only at hok
      cases h2 : get_user_by_email store email with
      | some u =>
          rw [h2] at hok
          simp at hok
      | none =>
          rw [h2] at hok
          dsimp only at hok
          rw [Except.ok.injEq, Prod.mk.injEq] at hok
          exact ⟨(create_user store username email (hashPw password)).1.id,
            hok.2.symm⟩

theorem refresh_store_shape (store : Store) (tok : String) (ua ip : Option String)
    (ntok : String) (now : ℤ) (cfg : AuthConfig) (resp : TokenResponse)
    (store' : Store)
    (hok : refresh_access_token store tok ua ip true ntok now cfg =
      .ok (resp, store')) :
    ∃ uid, store' = create_refresh_token (revoke_refresh_token store tok)
      cfg.MAX_SESSIONS_PER_USER uid ntok cfg.REFRESH_TOKEN_EXPIRE_DAYS ua ip now := by
  unfold refresh_access_token at hok
  cases hr : get_refresh_token store tok with
  | none =>
      rw [hr] at hok
      simp at hok
  | some r₀ =>
      rw [hr] at hok
      dsimp only at hok
      split_ifs at hok with h1 h2 hrot
      case neg => exact absurd rfl hrot
      cases hu : get_user_by_id store r₀.user_id with
      | none =>
          rw [hu] at hok
          simp at hok
      | some user =>
          rw [hu] at hok
          dsimp only at hok
          split_ifs at hok with h3
          rw [Except.ok.injEq, Prod.mk.injEq] at hok
          exact ⟨user.id, hok.2.symm⟩

/-- C1: before a new refresh credential is persisted, the number of
non-revoked, non-expired credentials of the user is checked against the
configured maximum; at or above the limit the oldest live credential
(FIFO by `created_at`) is revoked before the new one is stored, and every
successful login, registration or rotating refresh preserves the bound
that no user holds more than the configured maximum of live refresh
credentials. -/
theorem C1_session_limit_enforced (store : Store) (uid : ℕ) (ntok : String)
    (ua ip : Option String) (now : ℤ) (cfg : AuthConfig)
    (hms : 1 ≤ cfg.MAX_SESSIONS_PER_USER)
    (hfresh : ∀ r ∈ store.refreshTokens, r.token ≠ ntok) :
    (∀ u, liveCount store u now ≤ cfg.MAX_SESSIONS_PER_USER →
      liveCount (create_refresh_token store cfg.MAX_SESSIONS_PER_USER uid ntok
        cfg.REFRESH_TOKEN_EXPIRE_DAYS ua ip now) u now ≤
        cfg.MAX_SESSIONS_PER_USER) ∧
    (cfg.MAX_SESSIONS_PER_USER ≤ liveCount store uid now →
      ∃ v ∈ liveTokens store uid now,
        (∀ r ∈ liveTokens store uid now, v.created_at ≤ r.created_at) ∧
        (∀ r' ∈ (create_refresh_token store cfg.MAX_SESSIONS_PER_USER uid ntok
            cfg.REFRESH_TOKEN_EXPIRE_DAYS ua ip now).refreshTokens,
          r'.token = v.token → r'.is_revoked = true)) ∧
    (∀ cp username password resp store',
      login_user cp store username password ua ip ntok now cfg =
        .ok (resp, store') →
      ∀ u, liveCount store u now ≤ cfg.MAX_SESSIONS_PER_USER →
        liveCount store' u now ≤ cfg.MAX_SESSIONS_PER_USER) ∧
    (∀ hashPw username email password resp store',
      register_user hashPw store username email password ua ip ntok now cfg =
        .ok (resp, store') →
      ∀ u, liveCount store u now ≤ cfg.MAX_SESSIONS_PER_USER →
        liveCount store' u now ≤ cfg.MAX_SESSIONS_PER_USER) ∧
    (∀ tok resp store',
      refresh_access_token store tok ua ip true ntok now cfg =
        .ok (resp, store') →
      ∀ u, liveCount store u now ≤ cfg.MAX_SESSIONS_PER_USER →
        liveCount store' u now ≤ cfg.MAX_SESSIONS_PER_USER) := by
  refine ⟨?_, ?_, ?_, ?_, ?_⟩
  · intro u hle
    exact liveCount_create_le store _ uid ntok _ ua ip now hms u hle
  · intro hcond
    exact create_evicts_oldest store _ uid ntok _ ua ip now hfresh hcond hms
  · intro cp username password resp store' hok u hle
    rcases login_store_shape cp store username password ua ip ntok now cfg
      resp store' hok with ⟨user, rfl⟩
    exact liveCount_create_le store _ user.id ntok _ ua ip now hms u hle
  · intro hashPw username email password resp store' hok u hle
    rcases register_store_shape hashPw store username email password ua ip ntok
      now cfg resp store' hok with ⟨uid', rfl⟩
    have heq : liveCount (create_user store username email (hashPw password)).2
        u now = liveCount store u now := rfl
    exact liveCount_create_le _ _ uid' ntok _ ua ip now hms u
      (by rw [heq]; exact hle)
  · intro tok resp store' hok u hle
    rcases refresh_store_shape store tok ua ip ntok now cfg resp store' hok with
      ⟨uid', rfl⟩
    exact liveCount_create_le _ _ uid' ntok _ ua ip now hms u
      (le_trans (liveCount_revoke_le store tok u now) hle)

/-- Witness for C1 at a concrete input: with `max_sessions = 2`, after
two live sessions a third login evicts the first credential — it becomes
revoked — while sessions 2 and 3 remain active, and the live-session
bound is preserved. -/
theorem C1_session_limit_enforced_witness :
    1 ≤ (⟨⟨"k", "HS256", 30⟩, 7, 2⟩ : AuthConfig).MAX_SESSIONS_PER_USER ∧
    login_user (fun _ _ => .ok true)
        ⟨[⟨1, "alice", "a@x.com", "h", true, false⟩],
          [⟨"s1", 1, 604800, 0, false, none, none⟩,
           ⟨"s2", 1, 604801, 1, false, none, none⟩]⟩
        "alice" "pw" none none "s3" 2 ⟨⟨"k", "HS256", 30⟩, 7, 2⟩ =
      .ok (⟨create_access_token [("sub", ClaimValue.str "1"),
            ("username", ClaimValue.str "alice")] none 2 ⟨"k", "HS256", 30⟩, "s3"⟩,
        ⟨[⟨1, "alice", "a@x.com", "h", true, false⟩],
          [⟨"s1", 1, 604800, 0, true, none, none⟩,
           ⟨"s2", 1, 604801, 1, false, none, none⟩,
           ⟨"s3", 1, 604802, 2, false, none, none⟩]⟩) ∧
    liveCount ⟨[⟨1, "alice", "a@x.com", "h", true, false⟩],
        [⟨"s1", 1, 604800, 0, false, none, none⟩,
         ⟨"s2", 1, 604801, 1, false, none, none⟩]⟩ 1 2 ≤ 2 ∧
    liveCount ⟨[⟨1, "alice", "a@x.com", "h", true, false⟩],
        [⟨"s1", 1, 604800, 0, true, none, none⟩,
         ⟨"s2", 1, 604801, 1, false, none, none⟩,
         ⟨"s3", 1, 604802, 2, false, none, none⟩]⟩ 1 2 ≤ 2 ∧
    get_refresh_token ⟨[⟨1, "alice", "a@x.com", "h", true, false⟩],
        [⟨"s1", 1, 604800, 0, true, none, none⟩,
         ⟨"s2", 1, 604801, 1, false, none, none⟩,
         ⟨"s3", 1, 604802, 2, false, none, none⟩]⟩ "s1" =
      some ⟨"s1", 1, 604800, 0, true, none, none⟩ ∧
    get_refresh_token ⟨[⟨1, "alice", "a@x.com", "h", true, false⟩],
        [⟨"s1", 1, 604800, 0, true, none, none⟩,
         ⟨"s2", 1, 604801, 1, false, none, none⟩,
         ⟨"s3", 1, 604802, 2, false, none, none⟩]⟩ "s2" =
      some ⟨"s2", 1, 604801, 1, false, none, none⟩ ∧
    get_refresh_token ⟨[⟨1, "alice", "a@x.com", "h", true, false⟩],
        [⟨"s1", 1, 604800, 0, true, none, none⟩,
         ⟨"s2", 1, 604801, 1, false, none, none⟩,
         ⟨"s3", 1, 604802, 2, false, none, none⟩]⟩ "s3" =
      some ⟨"s3", 1, 604802, 2, false, none, none⟩ := by
  refine ⟨by decide, by rfl, by decide, ?_, by decide, by decide, by decide⟩
  exact (C1_session_limit_enforced
      ⟨[⟨1, "alice", "a@x.com", "h", true, false⟩],
        [⟨"s1", 1, 604800, 0, false, none, none⟩,
         ⟨"s2", 1, 604801, 1, false, none, none⟩]⟩
      1 "s3" none none 2 ⟨⟨"k", "HS256", 30⟩, 7, 2⟩ (by decide) (by decide)).2.2.1
    (fun _ _ => .ok true) "alice" "pw"
    ⟨create_access_token [("sub", ClaimValue.str "1"),
        ("username", ClaimValue.str "alice")] none 2 ⟨"k", "HS256", 30⟩, "s3"⟩
    ⟨[⟨1, "alice", "a@x.com", "h", true, false⟩],
      [⟨"s1", 1, 604800, 0, true, none, none⟩,
       ⟨"s2", 1, 604801, 1, false, none, none⟩,
       ⟨"s3", 1, 604802, 2, false, none, none⟩]⟩
    (by rfl) 1 (by decide)
